import Mathlib

/-!
The array object of pdfcpu (`pkg/pdfcpu/array.go`).

A shallow embedding of `PDFArray` and its operations: the four literal builders,
the membership test `contains`, the debug renderer `indentedString` / `String`
and the canonical renderer `PDFString`.

Conventions of the embedding.

* A Go `string` is a Lean `String`, a Go `int` is a Lean `Int` (no arithmetic other
  than `level + 1` is performed on it), a Go slice is a `List`.
* `strings.Join(logstr, "")` is `String.join logstr`; `fmt.Sprintf` with only `%s`
  verbs is string concatenation.
* A Go result pair `(bool, error)` is `Bool × Option E`, `none` being the `nil` error.
* `PDFString` returns `Option String`: `none` means that the process ended inside the
  call, in `log.Info.Fatalf` (line 211) or in the renderer of a nested PDFDict, so that
  no string is returned.  Nothing follows the call of `log.Info.Fatalf` in the loop body:
  when that call returns, the loop goes on.  `indentedString` returns
  `Option String`: `none` means that `strings.Repeat` panicked on a negative count.
* The renderers of the other object types, the logger `log.Info`, the comparator
  `equalPDFObjects` and the cross reference table live outside `array.go`; they are
  parameters of the embedding.
-/

/-! ## Data model -/

/-- A Go `float64`, kept as its bit pattern; no arithmetic is performed on it here. -/
structure float64 where
  bits : Nat

/-- The values an entry of a `PDFArray` (a `PDFObject` interface value) can hold:
the `nil` interface, the nine dynamic types that `PDFArray.PDFString` tests for, and
`other` for a non-nil value of any further dynamic type (`typeName` is what `%T`
prints for it and `str` what `%v` prints). -/
inductive PDFObject where
  | null
  | PDFDict (d : List (String × PDFObject))
  | PDFArray (a : List PDFObject)
  | PDFIndirectRef (objectNumber generationNumber : Int)
  | PDFName (s : String)
  | PDFInteger (i : Int)
  | PDFFloat (f : float64)
  | PDFBoolean (b : Bool)
  | PDFStringLiteral (s : String)
  | PDFHexLiteral (s : String)
  | other (typeName : String) (str : String)

/-- Source: `type PDFArray []PDFObject`. -/
abbrev PDFArray := List PDFObject

/-- The keyed collection `PDFDict` (a Go `map[string]PDFObject`), as its list of
key and value pairs.  `array.go` never looks inside one. -/
abbrev PDFDict := List (String × PDFObject)

/-- The methods of the other object types and of the logger that `array.go` calls and
that are defined outside of it.  `dictPDFString` may itself end the process (`none`). -/
structure Collaborators where
  /-- Method `PDFDict.PDFString()`. -/
  dictPDFString : PDFDict → Option String
  /-- Method `PDFDict.indentedString(level)`. -/
  dictIndentedString : PDFDict → Int → String
  /-- Method `PDFIndirectRef.PDFString()`. -/
  indRefPDFString : Int → Int → String
  /-- Method `PDFIndirectRef.String()`. -/
  indRefString : Int → Int → String
  /-- Method `PDFName.String()`. -/
  nameString : String → String
  /-- Method `PDFFloat.String()`. -/
  floatString : float64 → String
  /-- Method `PDFBoolean.String()`. -/
  booleanString : Bool → String
  /-- Method `PDFStringLiteral.String()`. -/
  stringLiteralString : String → String
  /-- Method `PDFHexLiteral.String()`. -/
  hexLiteralString : String → String
  /-- Method `log.Info.Fatalf` of package `pkg/log`, called with the formatted message:
  `true` when the call returns to its caller, `false` when it ends the process. -/
  fatalfReturns : String → Bool

/-- Modelled from the spec: `log.Info.Fatalf` of package `pkg/log`, which is outside
`array.go`.  The spec (§4.4, §7) has the fatal path log the offending type and value
and abort the whole process: the call never returns to its caller (`false`). -/
def log.Info.Fatalf (_message : String) : Bool := false

/-- Modelled from the spec: `PDFName.PDFString()`, defined outside `array.go`.
The spec (§8) gives the canonical form of the name `A` as `/A`. -/
def PDFName.PDFString (s : String) : String := "/" ++ s

/-- Modelled from the spec: `PDFInteger.String()`, defined outside `array.go`.
The spec (§8) renders the integers 1, 2, 3 as `1`, `2`, `3`: the decimal form. -/
def PDFInteger.String (i : Int) : String := toString i

/-- Go's `strings.Repeat(s, count)`: `count` copies of `s`; it panics (`none`) when
`count` is negative.  (Running out of memory on a huge count is not modelled.) -/
def strings.Repeat (s : String) (count : Int) : Option String :=
  if count < 0 then none else some (String.join (List.replicate count.toNat s))

/-! ## Builders (lines 30-76) -/

/-- Source: `NewStringArray`, lines 31-40. -/
def PDFArray.NewStringArray (sVars : List String) : PDFArray :=
  sVars.foldl (fun a s => a ++ [PDFObject.PDFStringLiteral s]) []

/-- Source: `NewNameArray`, lines 43-52. -/
def PDFArray.NewNameArray (sVars : List String) : PDFArray :=
  sVars.foldl (fun a s => a ++ [PDFObject.PDFName s]) []

/-- Source: `NewNumberArray`, lines 55-64. -/
def PDFArray.NewNumberArray (fVars : List float64) : PDFArray :=
  fVars.foldl (fun a f => a ++ [PDFObject.PDFFloat f]) []

/-- Source: `NewIntegerArray`, lines 67-76. -/
def PDFArray.NewIntegerArray (fVars : List Int) : PDFArray :=
  fVars.foldl (fun a f => a ++ [PDFObject.PDFInteger f]) []

/-! ## Membership (lines 78-89) -/

/-- Source: `PDFArray.contains`, lines 78-89.  The comparator `equalPDFObjects` is
defined outside `array.go` and is a parameter, as are the type `X` of the cross
reference table and the type `E` of errors. -/
def PDFArray.contains {X E : Type} (equalPDFObjects : PDFObject → PDFObject → X → Bool × Option E)
    (array : PDFArray) (o : PDFObject) (xRefTable : X) : Bool × Option E :=
  match array with
  | [] => (false, none)
  | e :: rest =>
    match equalPDFObjects e o xRefTable with
    | (_, some err) => (false, some err)
    | (true, none) => (true, none)
    | (false, none) => PDFArray.contains equalPDFObjects rest o xRefTable

/-! ## Debug rendering (lines 91-130) -/

mutual
/-- One pass through the loop body of `indentedString` (lines 107-120) for `entry`:
the string appended to `logstr`.  A nested array is rendered by the recursive call
`array.indentedString(level + 1)`, which first computes its own `tabstr`. -/
def PDFArray.indentedString.entry (c : Collaborators) (level : Int) (tabstr sepstr : String) :
    PDFObject → Option String
  | .PDFDict subdict =>
    some ("\n" ++ tabstr ++ c.dictIndentedString subdict (level + 1) ++ "\n" ++ tabstr)
  | .PDFArray array =>
    match strings.Repeat "\t" (level + 1) with
    | none => none
    | some tabstr1 =>
      match PDFArray.indentedString.loop c (level + 1) tabstr1 array true ["["] with
      | none => none
      | some logstr => some (sepstr ++ String.join (logstr ++ ["]"]))
  | .null => some (sepstr ++ "<nil>")
  | .PDFIndirectRef n g => some (sepstr ++ c.indRefString n g)
  | .PDFName s => some (sepstr ++ c.nameString s)
  | .PDFInteger i => some (sepstr ++ PDFInteger.String i)
  | .PDFFloat f => some (sepstr ++ c.floatString f)
  | .PDFBoolean b => some (sepstr ++ c.booleanString b)
  | .PDFStringLiteral s => some (sepstr ++ c.stringLiteralString s)
  | .PDFHexLiteral s => some (sepstr ++ c.hexLiteralString s)
  | .other _ str => some (sepstr ++ str)
termination_by structural x => x
/-- The loop of `indentedString` (lines 98-121) over the remaining entries, with the
loop state `first` and `logstr`.  After a `PDFDict` entry `first` is set again. -/
def PDFArray.indentedString.loop (c : Collaborators) (level : Int) (tabstr : String) :
    List PDFObject → Bool → List String → Option (List String)
  | [], _, logstr => some logstr
  | entry :: rest, first, logstr =>
    let sepstr := if first then "" else " "
    match PDFArray.indentedString.entry c level tabstr sepstr entry with
    | none => none
    | some s =>
      PDFArray.indentedString.loop c level tabstr rest
        (match entry with
          | .PDFDict _ => true
          | _ => false)
        (logstr ++ [s])
termination_by structural x => x
end

/-- Source: `PDFArray.indentedString`, lines 91-126. -/
def PDFArray.indentedString (c : Collaborators) (array : PDFArray) (level : Int) : Option String :=
  match strings.Repeat "\t" level with
  | none => none
  | some tabstr =>
    match PDFArray.indentedString.loop c level tabstr array true ["["] with
    | none => none
    | some logstr => some (String.join (logstr ++ ["]"]))

/-! ## Canonical rendering (lines 132-217) -/

mutual
/-- One pass through the loop body of `PDFString` (lines 149-211) for `entry`: the
string appended to `logstr`, or `none` when the process ends in that pass.  A nested
array is rendered by the recursive call `array.PDFString()`.  An entry of none of the
nine types falls through to `log.Info.Fatalf` (line 211), called with the entry's type
(`%T`) and value (`%v`).  Nothing follows that call in the body: when it returns, the
pass ends without an append and the loop goes on.  That pass is recorded as the empty
string appended, which leaves `strings.Join(logstr, "")` as it is. -/
def PDFArray.PDFString.entry (c : Collaborators) (sepstr : String) : PDFObject → Option String
  | .null => some (sepstr ++ "null")
  | .PDFDict subdict => c.dictPDFString subdict
  | .PDFArray array =>
    match PDFArray.PDFString.loop c array true ["["] with
    | none => none
    | some logstr => some (String.join (logstr ++ ["]"]))
  | .PDFIndirectRef n g => some (sepstr ++ c.indRefPDFString n g)
  | .PDFName s => some (PDFName.PDFString s)
  | .PDFInteger i => some (sepstr ++ PDFInteger.String i)
  | .PDFFloat f => some (sepstr ++ c.floatString f)
  | .PDFBoolean b => some (sepstr ++ c.booleanString b)
  | .PDFStringLiteral s => some (sepstr ++ c.stringLiteralString s)
  | .PDFHexLiteral s => some (sepstr ++ c.hexLiteralString s)
  | .other typeName str =>
    if c.fatalfReturns
        ("PDFArray.PDFString(): entry of unknown object type: " ++ typeName ++ " " ++ str ++ "\n")
    then some "" else none
termination_by structural x => x
/-- The loop of `PDFString` (lines 140-212) over the remaining entries, with the loop
state `first` and `logstr`. -/
def PDFArray.PDFString.loop (c : Collaborators) :
    List PDFObject → Bool → List String → Option (List String)
  | [], _, logstr => some logstr
  | entry :: rest, first, logstr =>
    let sepstr := if first then "" else " "
    match PDFArray.PDFString.entry c sepstr entry with
    | none => none
    | some s => PDFArray.PDFString.loop c rest false (logstr ++ [s])
termination_by structural x => x
end

/-- Source: `PDFArray.PDFString`, lines 133-217. -/
def PDFArray.PDFString (c : Collaborators) (array : PDFArray) : Option String :=
  match PDFArray.PDFString.loop c array true ["["] with
  | none => none
  | some logstr => some (String.join (logstr ++ ["]"]))

/-- Source: `PDFArray.String`, lines 128-130.  (Declared after the renderers so that
the type name `String` stays unambiguous in their declarations.) -/
def PDFArray.String (c : Collaborators) (array : PDFArray) : Option String :=
  PDFArray.indentedString c array 1

/-- A set of collaborator renderers, used to run the renderers on concrete arrays. -/
def sampleCollaborators : Collaborators where
  dictPDFString := fun _ => some "<<>>"
  dictIndentedString := fun _ _ => "<<>>"
  indRefPDFString := fun n g => toString n ++ " " ++ toString g ++ " R"
  indRefString := fun n g => "(" ++ toString n ++ " " ++ toString g ++ " R)"
  nameString := fun s => s
  floatString := fun _ => "0.00"
  booleanString := fun b => toString b
  stringLiteralString := fun s => "(" ++ s ++ ")"
  hexLiteralString := fun s => "<" ++ s ++ ">"
  fatalfReturns := log.Info.Fatalf

/-! ## The comparator and the resolution table (outside `array.go`) -/

/-- Modelled from the spec: the Resolution Table (§3), defined outside `array.go`: a
mapping from reference token (object and generation number) to the object it
denotes.  `limit` is the table's cycle breaking: the number of resolution or descent
steps after which a comparison is given up with an error. -/
structure XRefTable where
  table : List ((Int × Int) × PDFObject)
  limit : Nat

/-- Modelled from the spec: resolution of a reference (§4.2 (a)), defined outside
`array.go`: follow the table, transitively, to the terminal non-reference object.
A dangling reference and an exhausted step count are failures (`none`). -/
def XRefTable.dereference (xRefTable : XRefTable) : Nat → PDFObject → Option PDFObject
  | 0, .PDFIndirectRef _ _ => none
  | fuel + 1, .PDFIndirectRef n g =>
    match xRefTable.table.lookup (n, g) with
    | none => none
    | some o => XRefTable.dereference xRefTable fuel o
  | _, o => some o

/-- Modelled from the spec: the structural-equality-with-resolution comparator of
§4.2, defined outside `array.go`, with `fuel` steps left.  (a) both operands are
resolved; (b) references, booleans, integers, reals and names are compared by value;
(c) string and hex literals by decoded content (`decodeLiteral`, `decodeHex`);
(d) keyed collections by key set and, key by key, recursively; (e) ordered
collections by length and then entry by entry, in order; (f) different variants are
never equal.  A failed resolution is an error and stops the comparison. -/
def equalPDFObjects.go (decodeLiteral decodeHex : String → String) (xRefTable : XRefTable) :
    Nat → PDFObject → PDFObject → Bool × Option String
  | 0, _, _ => (false, some "pdfcpu: resolution limit reached")
  | fuel + 1, o1, o2 =>
    match xRefTable.dereference fuel o1, xRefTable.dereference fuel o2 with
    | none, _ => (false, some "pdfcpu: unresolvable reference")
    | _, none => (false, some "pdfcpu: unresolvable reference")
    | some r1, some r2 =>
      match r1, r2 with
      | .null, .null => (true, none)
      | .PDFBoolean b1, .PDFBoolean b2 => (b1 == b2, none)
      | .PDFInteger i1, .PDFInteger i2 => (i1 == i2, none)
      | .PDFFloat f1, .PDFFloat f2 => (f1.bits == f2.bits, none)
      | .PDFName s1, .PDFName s2 => (s1 == s2, none)
      | .PDFStringLiteral s1, .PDFStringLiteral s2 => (decodeLiteral s1 == decodeLiteral s2, none)
      | .PDFHexLiteral s1, .PDFHexLiteral s2 => (decodeHex s1 == decodeHex s2, none)
      | .PDFArray a1, .PDFArray a2 =>
        if a1.length ≠ a2.length then (false, none)
        else
          (a1.zip a2).foldl
            (fun acc p =>
              match acc with
              | (true, none) => equalPDFObjects.go decodeLiteral decodeHex xRefTable fuel p.1 p.2
              | r => r)
            (true, none)
      | .PDFDict d1, .PDFDict d2 =>
        if ¬ (d1.all (fun kv => d2.any (fun kw => kw.1 == kv.1))
            && d2.all (fun kw => d1.any (fun kv => kv.1 == kw.1))) then (false, none)
        else
          d1.foldl
            (fun acc kv =>
              match acc, d2.lookup kv.1 with
              | (true, none), some v2 =>
                equalPDFObjects.go decodeLiteral decodeHex xRefTable fuel kv.2 v2
              | r, _ => r)
            (true, none)
      | _, _ => (false, none)

/-- Modelled from the spec: the comparator `equalPDFObjects(o1, o2, xRefTable)` of
§4.2, defined outside `array.go`; string and hex literals are taken to be stored in
decoded form. -/
def equalPDFObjects (o1 o2 : PDFObject) (xRefTable : XRefTable) : Bool × Option String :=
  equalPDFObjects.go id id xRefTable xRefTable.limit o1 o2

/-! ## Predicates used to state the rendering claims -/

mutual
/-- The entry is a non-nil value of a dynamic type other than the nine that
`PDFString` tests for, or it is a nested array that holds such an entry at any depth
of array nesting. -/
def entryHoldsUnknown : PDFObject → Bool
  | .other _ _ => true
  | .PDFArray a => arrayHoldsUnknown a
  | _ => false
termination_by structural x => x
/-- Some entry of the array, or of an array nested in it at any depth, is a non-nil
value of a dynamic type other than the nine that `PDFString` tests for. -/
def arrayHoldsUnknown : List PDFObject → Bool
  | [] => false
  | e :: rest => entryHoldsUnknown e || arrayHoldsUnknown rest
termination_by structural x => x
end

mutual
/-- Every keyed collection that is the entry, or an entry at any depth of array
nesting inside it, renders without fault. -/
def entryDictsRender (c : Collaborators) : PDFObject → Bool
  | .PDFDict d => (c.dictPDFString d).isSome
  | .PDFArray a => arrayDictsRender c a
  | _ => true
termination_by structural x => x
/-- Every keyed collection that is an entry of the array, or of an array nested in it
at any depth, renders without fault. -/
def arrayDictsRender (c : Collaborators) : List PDFObject → Bool
  | [] => true
  | e :: rest => entryDictsRender c e && arrayDictsRender c rest
termination_by structural x => x
end

/-- The debug form `%v` of an entry that reaches line 120: `<nil>` for the nil
interface, the entry's own `String()` form otherwise.  Entries of type PDFDict and
PDFArray are taken by the branches of lines 107 and 114 and never reach that line
(`none`). -/
def debugForm (c : Collaborators) : PDFObject → Option String
  | .PDFDict _ => none
  | .PDFArray _ => none
  | .null => some "<nil>"
  | .PDFIndirectRef n g => some (c.indRefString n g)
  | .PDFName s => some (c.nameString s)
  | .PDFInteger i => some (PDFInteger.String i)
  | .PDFFloat f => some (c.floatString f)
  | .PDFBoolean b => some (c.booleanString b)
  | .PDFStringLiteral s => some (c.stringLiteralString s)
  | .PDFHexLiteral s => some (c.hexLiteralString s)
  | .other _ str => some str

/-- The loop state `first` of `indentedString` after the loop body has run for
`entry`: cleared at line 101 and set again only by the PDFDict branch (line 110). -/
def firstAfter (entry : PDFObject) : Bool :=
  match entry with
  | .PDFDict _ => true
  | _ => false

/-- The separator of the debug form in the words of the spec (§4.3): a single space,
except for the first entry and for the entry that directly follows a nested keyed
collection, which get none. -/
def separatorAt (array : List PDFObject) (i : Nat) : String :=
  match i with
  | 0 => ""
  | j + 1 =>
    match array[j]? with
    | some (.PDFDict _) => ""
    | _ => " "

mutual
/-- The entry is a keyed collection, or a nested array that holds one at any depth of
array nesting. -/
def entryHoldsDict : PDFObject → Bool
  | .PDFDict _ => true
  | .PDFArray a => arrayHoldsDict a
  | _ => false
termination_by structural x => x
/-- Some entry of the array, or of an array nested in it at any depth, is a keyed
collection. -/
def arrayHoldsDict : List PDFObject → Bool
  | [] => false
  | e :: rest => entryHoldsDict e || arrayHoldsDict rest
termination_by structural x => x
end

mutual
/-- The entry is an integer or a nested array that is an integer tree. -/
def entryIsIntegerTree : PDFObject → Bool
  | .PDFInteger _ => true
  | .PDFArray a => arrayIsIntegerTree a
  | _ => false
termination_by structural x => x
/-- An integer tree: every entry is an integer or, recursively, an integer tree. -/
def arrayIsIntegerTree : List PDFObject → Bool
  | [] => true
  | e :: rest => entryIsIntegerTree e && arrayIsIntegerTree rest
termination_by structural x => x
end

/-- The number that a string of decimal digits denotes, read from the left. -/
def decimalValue (digits : List Char) : Nat :=
  digits.foldl (fun acc ch => 10 * acc + (ch.toNat - 48)) 0

/-- The items of a list written one after the other with `sep` between consecutive
items. -/
def joinedBy (sep : Char) : List (List Char) → List Char
  | [] => []
  | x :: l => x ++ (l.map (sep :: ·)).flatten

/-! ## Builders: helper lemma -/

theorem foldl_append_singleton_eq_map {α β : Type} (f : α → β) (xs : List α) (acc : List β) :
    xs.foldl (fun a s => a ++ [f s]) acc = acc ++ xs.map f := by
  induction xs generalizing acc with
  | nil => simp
  | cons x xs ih => simp [ih]

/-! ## Membership: helper lemmas -/

theorem contains_nil {X E : Type} (cmp : PDFObject → PDFObject → X → Bool × Option E)
    (o : PDFObject) (t : X) : PDFArray.contains cmp [] o t = (false, none) := rfl

theorem contains_cons_err {X E : Type} (cmp : PDFObject → PDFObject → X → Bool × Option E)
    (e : PDFObject) (rest : PDFArray) (o : PDFObject) (t : X) (err : E)
    (h : (cmp e o t).2 = some err) :
    PDFArray.contains cmp (e :: rest) o t = (false, some err) := by
  rcases hc : cmp e o t with ⟨b, r⟩
  rw [hc] at h
  simp only at h
  subst h
  simp [PDFArray.contains, hc]

theorem contains_cons_true {X E : Type} (cmp : PDFObject → PDFObject → X → Bool × Option E)
    (e : PDFObject) (rest : PDFArray) (o : PDFObject) (t : X)
    (h : cmp e o t = (true, none)) :
    PDFArray.contains cmp (e :: rest) o t = (true, none) := by
  simp [PDFArray.contains, h]

theorem contains_cons_false {X E : Type} (cmp : PDFObject → PDFObject → X → Bool × Option E)
    (e : PDFObject) (rest : PDFArray) (o : PDFObject) (t : X)
    (h : cmp e o t = (false, none)) :
    PDFArray.contains cmp (e :: rest) o t = PDFArray.contains cmp rest o t := by
  simp [PDFArray.contains, h]

/-- Every result of the comparator is of one of the three kinds the loop body
distinguishes. -/
theorem cmp_cases {E : Type} (r : Bool × Option E) :
    (∃ err, r.2 = some err) ∨ r = (true, none) ∨ r = (false, none) := by
  rcases r with ⟨b, _ | err⟩
  · cases b <;> simp
  · exact Or.inl ⟨err, rfl⟩

/-- The scan skips a prefix on which the comparator reports (false, nil). -/
theorem contains_append_of_false {X E : Type} (cmp : PDFObject → PDFObject → X → Bool × Option E)
    (pre rest : PDFArray) (o : PDFObject) (t : X)
    (hpre : ∀ x ∈ pre, cmp x o t = (false, none)) :
    PDFArray.contains cmp (pre ++ rest) o t = PDFArray.contains cmp rest o t := by
  induction pre with
  | nil => rfl
  | cons x pre ih =>
    rw [List.cons_append, contains_cons_false cmp x _ o t (hpre x (List.mem_cons_self _ _))]
    exact ih (fun y hy => hpre y (List.mem_cons_of_mem _ hy))

/-- The scan over a concatenation: a prefix that yields (false, nil) hands over to the
suffix, every other result of the prefix is final. -/
theorem contains_append {X E : Type} (cmp : PDFObject → PDFObject → X → Bool × Option E)
    (xs ys : PDFArray) (o : PDFObject) (t : X) :
    PDFArray.contains cmp (xs ++ ys) o t =
      match PDFArray.contains cmp xs o t with
      | (false, none) => PDFArray.contains cmp ys o t
      | r => r := by
  induction xs with
  | nil => simp [contains_nil]
  | cons x xs ih =>
    rcases cmp_cases (cmp x o t) with ⟨err, h⟩ | h | h
    · rw [List.cons_append, contains_cons_err cmp x _ o t err h,
        contains_cons_err cmp x _ o t err h]
    · rw [List.cons_append, contains_cons_true cmp x _ o t h, contains_cons_true cmp x _ o t h]
    · rw [List.cons_append, contains_cons_false cmp x _ o t h, contains_cons_false cmp x _ o t h]
      exact ih

/-- The error component of `contains` is an error of the comparator on some entry all
of whose predecessors compared (false, nil). -/
theorem contains_error_iff {X E : Type} (cmp : PDFObject → PDFObject → X → Bool × Option E)
    (array : PDFArray) (o : PDFObject) (t : X) (err : E) :
    (PDFArray.contains cmp array o t).2 = some err ↔
      ∃ pre e post, array = pre ++ e :: post ∧ (∀ x ∈ pre, cmp x o t = (false, none)) ∧
        (cmp e o t).2 = some err := by
  constructor
  · intro h
    induction array with
    | nil => simp [contains_nil] at h
    | cons x xs ih =>
      rcases cmp_cases (cmp x o t) with ⟨err1, hx⟩ | hx | hx
      · rw [contains_cons_err cmp x _ o t err1 hx] at h
        simp only [Option.some.injEq] at h
        subst h
        exact ⟨[], x, xs, rfl, by simp, hx⟩
      · rw [contains_cons_true cmp x _ o t hx] at h
        simp at h
      · rw [contains_cons_false cmp x _ o t hx] at h
        obtain ⟨pre, e, post, harr, hpre, he⟩ := ih h
        refine ⟨x :: pre, e, post, by simp [harr], ?_, he⟩
        intro y hy
        rcases List.mem_cons.1 hy with rfl | hy
        · exact hx
        · exact hpre y hy
  · rintro ⟨pre, e, post, rfl, hpre, he⟩
    rw [contains_append_of_false cmp pre _ o t hpre, contains_cons_err cmp e _ o t err he]

/-- Without comparator errors, `contains` reports whether some entry compares equal. -/
theorem contains_no_error {X E : Type} (cmp : PDFObject → PDFObject → X → Bool × Option E)
    (array : PDFArray) (o : PDFObject) (t : X)
    (hne : ∀ e ∈ array, (cmp e o t).2 = none) :
    PDFArray.contains cmp array o t = (decide (∃ e ∈ array, (cmp e o t).1 = true), none) := by
  induction array with
  | nil => simp [contains_nil]
  | cons x xs ih =>
    have hx := hne x (List.mem_cons_self _ _)
    have ih1 := ih (fun y hy => hne y (List.mem_cons_of_mem _ hy))
    rcases cmp_cases (cmp x o t) with ⟨err1, h⟩ | h | h
    · rw [hx] at h
      simp at h
    · rw [contains_cons_true cmp x _ o t h]
      simp [h]
    · rw [contains_cons_false cmp x _ o t h, ih1]
      simp [h]

/-- An entry at index `i` splits the list into the entries before it and those after. -/
theorem split_at_index {α : Type} (l : List α) (i : Nat) (e : α) (h : l[i]? = some e) :
    l = l.take i ++ e :: l.drop (i + 1) := by
  obtain ⟨hi, rfl⟩ := List.getElem?_eq_some.1 h
  rw [← List.drop_eq_getElem_cons hi, List.take_append_drop]

/-- The members of the first `i` entries are the entries at the indices below `i`. -/
theorem mem_take_index {α : Type} (l : List α) (i : Nat) (x : α) (h : x ∈ l.take i) :
    ∃ j, j < i ∧ l[j]? = some x := by
  obtain ⟨j, hj⟩ := List.mem_iff_getElem?.1 h
  by_cases hji : j < i
  · exact ⟨j, hji, by rw [List.getElem?_take_of_lt hji] at hj; exact hj⟩
  · rw [List.getElem?_take] at hj
    simp [hji] at hj

/-- An index into the prefix of a concatenation is an index into the concatenation. -/
theorem index_in_front_part {α : Type} (pre post : List α) (x : α) (h : x ∈ pre) :
    ∃ j, j < pre.length ∧ (pre ++ post)[j]? = some x := by
  obtain ⟨j, hj⟩ := List.mem_iff_getElem?.1 h
  obtain ⟨hlt, _⟩ := List.getElem?_eq_some.1 hj
  exact ⟨j, hlt, by rw [List.getElem?_append_left hlt]; exact hj⟩

/-! ## Claims C1 to C4: builders and membership -/

/-- C1: each of the four builders is the elementwise map of its wrapper: for every
input sequence the result has exactly as many entries as the input, its i-th entry is
the wrapped i-th input (input order, duplicates kept), and the builders are total
functions (they return a collection for every input). -/
theorem C1_builders_elementwise_map (ss : List String) (fs : List float64) (is : List Int) :
    (PDFArray.NewStringArray ss = ss.map PDFObject.PDFStringLiteral ∧
      PDFArray.NewNameArray ss = ss.map PDFObject.PDFName ∧
      PDFArray.NewNumberArray fs = fs.map PDFObject.PDFFloat ∧
      PDFArray.NewIntegerArray is = is.map PDFObject.PDFInteger) ∧
    ((PDFArray.NewStringArray ss).length = ss.length ∧
      (PDFArray.NewNameArray ss).length = ss.length ∧
      (PDFArray.NewNumberArray fs).length = fs.length ∧
      (PDFArray.NewIntegerArray is).length = is.length) ∧
    (∀ i : Nat,
      (PDFArray.NewStringArray ss)[i]? = (ss[i]?).map PDFObject.PDFStringLiteral ∧
      (PDFArray.NewNameArray ss)[i]? = (ss[i]?).map PDFObject.PDFName ∧
      (PDFArray.NewNumberArray fs)[i]? = (fs[i]?).map PDFObject.PDFFloat ∧
      (PDFArray.NewIntegerArray is)[i]? = (is[i]?).map PDFObject.PDFInteger) := by
  have h1 : PDFArray.NewStringArray ss = ss.map PDFObject.PDFStringLiteral := by
    simp [PDFArray.NewStringArray, foldl_append_singleton_eq_map]
  have h2 : PDFArray.NewNameArray ss = ss.map PDFObject.PDFName := by
    simp [PDFArray.NewNameArray, foldl_append_singleton_eq_map]
  have h3 : PDFArray.NewNumberArray fs = fs.map PDFObject.PDFFloat := by
    simp [PDFArray.NewNumberArray, foldl_append_singleton_eq_map]
  have h4 : PDFArray.NewIntegerArray is = is.map PDFObject.PDFInteger := by
    simp [PDFArray.NewIntegerArray, foldl_append_singleton_eq_map]
  refine ⟨⟨h1, h2, h3, h4⟩, ?_, ?_⟩
  · rw [h1, h2, h3, h4]
    simp
  · intro i
    rw [h1, h2, h3, h4]
    simp

/-- C2: when the comparator returns no error on any entry, `contains` returns
(true, nil) if and only if at least one entry, at any position, compares equal to the
candidate, and (false, nil) otherwise; on the empty collection it returns (false, nil);
and a collection holding an indirect reference that the comparator finds equal to
Integer 5 contains Integer 5. -/
theorem C2_contains_iff_some_entry_equal {X E : Type}
    (cmp : PDFObject → PDFObject → X → Bool × Option E) (array : PDFArray) (o : PDFObject) (t : X)
    (hne : ∀ e ∈ array, (cmp e o t).2 = none) :
    (PDFArray.contains cmp array o t = (true, none) ↔ ∃ e ∈ array, (cmp e o t).1 = true) ∧
    (PDFArray.contains cmp array o t = (false, none) ↔ ¬ ∃ e ∈ array, (cmp e o t).1 = true) ∧
    PDFArray.contains cmp [] o t = (false, none) ∧
    (∀ n g : Int, PDFObject.PDFIndirectRef n g ∈ array → o = PDFObject.PDFInteger 5 →
      cmp (PDFObject.PDFIndirectRef n g) (PDFObject.PDFInteger 5) t = (true, none) →
      PDFArray.contains cmp array o t = (true, none)) := by
  have h := contains_no_error cmp array o t hne
  refine ⟨?_, ?_, contains_nil cmp o t, ?_⟩
  · rw [h]
    simp
  · rw [h]
    simp
  · intro n g hmem ho hc
    subst ho
    rw [h]
    simp only [Prod.mk.injEq, decide_eq_true_eq, and_true]
    exact ⟨_, hmem, by rw [hc]⟩

/-- C2, witness: the collection [/A, 7 0 R] with a table that resolves 7 0 R to
Integer 5, asked for Integer 5. -/
theorem C2_contains_iff_some_entry_equal_witness :
    (∀ e ∈ ([.PDFName "A", .PDFIndirectRef 7 0] : PDFArray),
        (equalPDFObjects e (.PDFInteger 5) ⟨[((7, 0), .PDFInteger 5)], 8⟩).2 = none) ∧
      PDFArray.contains equalPDFObjects [.PDFName "A", .PDFIndirectRef 7 0] (.PDFInteger 5)
        ⟨[((7, 0), .PDFInteger 5)], 8⟩ = (true, none) :=
  ⟨by decide,
    (C2_contains_iff_some_entry_equal equalPDFObjects [.PDFName "A", .PDFIndirectRef 7 0]
      (.PDFInteger 5) ⟨[((7, 0), .PDFInteger 5)], 8⟩ (by decide)).2.2.2 7 0 (by simp) rfl
      (by decide)⟩

/-- C3: if the comparator returns an error on the entry at index i and (false, nil) on
every entry before it, `contains` returns (false, err) with exactly that error, and so
does it on every collection that agrees with this one up to and including index i:
the entries after index i play no part. -/
theorem C3_contains_stops_at_first_error {X E : Type}
    (cmp : PDFObject → PDFObject → X → Bool × Option E) (array : PDFArray) (o : PDFObject) (t : X)
    (i : Nat) (e : PDFObject) (err : E)
    (hi : array[i]? = some e)
    (hbefore : ∀ (j : Nat) (x : PDFObject), j < i → array[j]? = some x → cmp x o t = (false, none))
    (herr : (cmp e o t).2 = some err) :
    PDFArray.contains cmp array o t = (false, some err) ∧
    ∀ array2 : PDFArray, array2.take (i + 1) = array.take (i + 1) →
      PDFArray.contains cmp array2 o t = (false, some err) := by
  have hpre : ∀ x ∈ array.take i, cmp x o t = (false, none) := by
    intro x hx
    obtain ⟨j, hj, hjx⟩ := mem_take_index array i x hx
    exact hbefore j x hj hjx
  have key : ∀ post : PDFArray,
      PDFArray.contains cmp (array.take i ++ e :: post) o t = (false, some err) := by
    intro post
    rw [contains_append_of_false cmp _ _ o t hpre, contains_cons_err cmp e _ o t err herr]
  have hsplit := split_at_index array i e hi
  refine ⟨by rw [hsplit]; exact key _, ?_⟩
  intro array2 h2
  have htake : array.take (i + 1) = array.take i ++ [e] := by
    obtain ⟨hlt, rfl⟩ := List.getElem?_eq_some.1 hi
    rw [List.take_succ, List.getElem?_eq_getElem hlt]
    rfl
  have h3 : array2 = array.take i ++ e :: array2.drop (i + 1) := by
    conv_lhs => rw [← List.take_append_drop (i + 1) array2, h2, htake]
    simp
  rw [h3]
  exact key _

/-- C3, witness: [/A, 9 0 R, 5] asked for Integer 5, with a table in which 9 0 R is
dangling: the error of index 1 is returned although index 2 holds a match. -/
theorem C3_contains_stops_at_first_error_witness :
    ([.PDFName "A", .PDFIndirectRef 9 0, .PDFInteger 5] : PDFArray)[1]?
        = some (.PDFIndirectRef 9 0) ∧
      equalPDFObjects (.PDFName "A") (.PDFInteger 5) ⟨[((7, 0), .PDFInteger 5)], 8⟩
        = (false, none) ∧
      (equalPDFObjects (.PDFIndirectRef 9 0) (.PDFInteger 5) ⟨[((7, 0), .PDFInteger 5)], 8⟩).2
        = some "pdfcpu: unresolvable reference" ∧
      PDFArray.contains equalPDFObjects [.PDFName "A", .PDFIndirectRef 9 0, .PDFInteger 5]
        (.PDFInteger 5) ⟨[((7, 0), .PDFInteger 5)], 8⟩
        = (false, some "pdfcpu: unresolvable reference") :=
  ⟨rfl, by decide, by decide,
    (C3_contains_stops_at_first_error equalPDFObjects
      [.PDFName "A", .PDFIndirectRef 9 0, .PDFInteger 5] (.PDFInteger 5)
      ⟨[((7, 0), .PDFInteger 5)], 8⟩ 1 (.PDFIndirectRef 9 0) "pdfcpu: unresolvable reference" rfl
      (by
        intro j x hj hx
        have hj0 : j = 0 := by omega
        subst hj0
        simp only [List.getElem?_cons_zero, Option.some.injEq] at hx
        subst hx
        decide)
      (by decide)).1⟩

/-- C4, counterexample: in [5, 9 0 R] asked for Integer 5, with 9 0 R dangling, the
comparator returns an error for the entry at index 1, yet `contains` returns
(true, nil): the match at index 0 ends the scan. -/
theorem C4_counterexample :
    ¬ ((PDFArray.contains equalPDFObjects [.PDFInteger 5, .PDFIndirectRef 9 0] (.PDFInteger 5)
          ⟨[], 8⟩).2 ≠ none ↔
        ∃ e ∈ ([.PDFInteger 5, .PDFIndirectRef 9 0] : PDFArray),
          (equalPDFObjects e (.PDFInteger 5) ⟨[], 8⟩).2 ≠ none) := by
  intro h
  have h1 : ∃ e ∈ ([.PDFInteger 5, .PDFIndirectRef 9 0] : PDFArray),
      (equalPDFObjects e (.PDFInteger 5) ⟨[], 8⟩).2 ≠ none :=
    ⟨.PDFIndirectRef 9 0, by simp, by decide⟩
  exact (h.2 h1) (by decide)

/-- C4, amended: `contains` returns a non-nil error if and only if the comparator
returns an error for some entry and returns (false, nil) for every entry before it
(the scan reaches that entry). -/
theorem C4_contains_error_iff_reached {X E : Type}
    (cmp : PDFObject → PDFObject → X → Bool × Option E) (array : PDFArray) (o : PDFObject) (t : X) :
    (PDFArray.contains cmp array o t).2 ≠ none ↔
      ∃ (i : Nat) (e : PDFObject), array[i]? = some e ∧ (cmp e o t).2 ≠ none ∧
        ∀ (j : Nat) (x : PDFObject), j < i → array[j]? = some x → cmp x o t = (false, none) := by
  constructor
  · intro h
    obtain ⟨err, herr⟩ := Option.ne_none_iff_exists'.1 h
    obtain ⟨pre, e, post, rfl, hpre, he⟩ := (contains_error_iff cmp array o t err).1 herr
    refine ⟨pre.length, e, ?_, by rw [he]; simp, ?_⟩
    · rw [List.getElem?_append_right (le_refl _)]
      simp
    · intro j x hj hx
      rw [List.getElem?_append_left hj] at hx
      exact hpre x (List.mem_iff_getElem?.2 ⟨j, hx⟩)
  · rintro ⟨i, e, hi, he, hbefore⟩
    obtain ⟨err, herr⟩ := Option.ne_none_iff_exists'.1 he
    have hpre : ∀ x ∈ array.take i, cmp x o t = (false, none) := by
      intro x hx
      obtain ⟨j, hj, hjx⟩ := mem_take_index array i x hx
      exact hbefore j x hj hjx
    have := (contains_error_iff cmp array o t err).2
      ⟨array.take i, e, array.drop (i + 1), split_at_index array i e hi, hpre, herr⟩
    rw [this]
    simp

/-! ## Strings: helper lemmas -/

theorem join_append (a b : List String) :
    String.join (a ++ b) = String.join a ++ String.join b := by
  apply String.ext
  simp

theorem join_cons (s : String) (l : List String) : String.join (s :: l) = s ++ String.join l := by
  apply String.ext
  simp

theorem join_nil : String.join [] = "" := rfl

theorem join_singleton (s : String) : String.join [s] = s := by
  apply String.ext
  simp

theorem intercalate_go_eq (acc s : String) (l : List String) :
    String.intercalate.go acc s l = acc ++ String.join (l.map (s ++ ·)) := by
  induction l generalizing acc with
  | nil => simp [String.intercalate.go, String.join]
  | cons x xs ih =>
    simp only [String.intercalate.go, ih, List.map_cons]
    apply String.ext
    simp

/-- Joining with a separator: the first string, then every further one behind the
separator. -/
theorem intercalate_cons (s x : String) (l : List String) :
    s.intercalate (x :: l) = x ++ String.join (l.map (s ++ ·)) := by
  simp [String.intercalate, intercalate_go_eq]

/-! ## Canonical rendering: helper lemmas -/

theorem PDFString_loop_nil (c : Collaborators) (first : Bool) (log : List String) :
    PDFArray.PDFString.loop c [] first log = some log := rfl

theorem PDFString_loop_cons (c : Collaborators) (e : PDFObject) (rest : List PDFObject)
    (first : Bool) (log : List String) :
    PDFArray.PDFString.loop c (e :: rest) first log =
      match PDFArray.PDFString.entry c (if first then "" else " ") e with
      | none => none
      | some s => PDFArray.PDFString.loop c rest false (log ++ [s]) := rfl

/-- The string appended for a nested array is the result of its own `PDFString()`. -/
theorem PDFString_entry_array (c : Collaborators) (sep : String) (a : PDFArray) :
    PDFArray.PDFString.entry c sep (.PDFArray a) = PDFArray.PDFString c a := rfl

/-- The loop only appends to `logstr`. -/
theorem PDFString_loop_log (c : Collaborators) (array : List PDFObject) (first : Bool)
    (log : List String) :
    PDFArray.PDFString.loop c array first log =
      (PDFArray.PDFString.loop c array first []).map (log ++ ·) := by
  induction array generalizing first log with
  | nil => simp [PDFString_loop_nil]
  | cons e rest ih =>
    rw [PDFString_loop_cons, PDFString_loop_cons]
    cases PDFArray.PDFString.entry c (if first then "" else " ") e with
    | none => rfl
    | some s =>
      simp only []
      rw [ih false (log ++ [s]), ih false ([] ++ [s])]
      cases PDFArray.PDFString.loop c rest false [] with
      | none => rfl
      | some ps => simp

/-- The loop over a concatenation runs the suffix from the state the prefix left. -/
theorem PDFString_loop_append (c : Collaborators) (xs ys : List PDFObject) (first : Bool)
    (log : List String) :
    PDFArray.PDFString.loop c (xs ++ ys) first log =
      (PDFArray.PDFString.loop c xs first log).bind
        (fun l => PDFArray.PDFString.loop c ys (first && xs.isEmpty) l) := by
  induction xs generalizing first log with
  | nil => simp [PDFString_loop_nil]
  | cons e rest ih =>
    rw [List.cons_append, PDFString_loop_cons, PDFString_loop_cons]
    cases PDFArray.PDFString.entry c (if first then "" else " ") e with
    | none => rfl
    | some s =>
      simp only []
      rw [ih]
      simp

/-- `PDFString` in terms of the pieces the loop appends. -/
theorem PDFString_eq_pieces (c : Collaborators) (array : PDFArray) :
    PDFArray.PDFString c array =
      (PDFArray.PDFString.loop c array true []).map (fun ps => "[" ++ String.join ps ++ "]") := by
  unfold PDFArray.PDFString
  rw [PDFString_loop_log]
  cases PDFArray.PDFString.loop c array true [] with
  | none => rfl
  | some ps =>
    simp only [Option.map_some']
    congr 1
    rw [join_append, join_append, join_singleton, join_singleton]

/-- The pieces of a successful loop: one per entry, the one at index `i` being what
the loop body appends for the entry at index `i`, with the separator empty exactly
when `first` is set and `i = 0`. -/
theorem PDFString_loop_pieces (c : Collaborators) (array : List PDFObject) (first : Bool)
    (ps : List String) (h : PDFArray.PDFString.loop c array first [] = some ps) :
    ps.length = array.length ∧
      ∀ (i : Nat) (e : PDFObject), array[i]? = some e →
        PDFArray.PDFString.entry c (if first = true ∧ i = 0 then "" else " ") e = ps[i]? := by
  induction array generalizing first ps with
  | nil =>
    rw [PDFString_loop_nil] at h
    simp only [Option.some.injEq] at h
    subst h
    simp
  | cons x rest ih =>
    rw [PDFString_loop_cons] at h
    cases hx : PDFArray.PDFString.entry c (if first then "" else " ") x with
    | none => rw [hx] at h; simp at h
    | some s =>
      rw [hx] at h
      simp only [] at h
      rw [PDFString_loop_log] at h
      cases hr : PDFArray.PDFString.loop c rest false [] with
      | none => rw [hr] at h; simp at h
      | some qs =>
        rw [hr] at h
        simp only [Option.map_some', Option.some.injEq] at h
        subst h
        obtain ⟨hlen, hidx⟩ := ih false qs hr
        refine ⟨by simp [hlen], ?_⟩
        intro i e hi
        cases i with
        | zero =>
          simp only [List.getElem?_cons_zero, Option.some.injEq] at hi
          subst hi
          simpa using hx
        | succ j =>
          simp only [List.getElem?_cons_succ] at hi
          have := hidx j e hi
          simpa using this

/-- The builders as maps (used by the rendering claims). -/
theorem NewNameArray_eq_map (ss : List String) :
    PDFArray.NewNameArray ss = ss.map PDFObject.PDFName := by
  simp [PDFArray.NewNameArray, foldl_append_singleton_eq_map]

theorem NewIntegerArray_eq_map (is : List Int) :
    PDFArray.NewIntegerArray is = is.map PDFObject.PDFInteger := by
  simp [PDFArray.NewIntegerArray, foldl_append_singleton_eq_map]

/-- The pieces of a run of names: each name's canonical form, without separator. -/
theorem PDFString_loop_names (c : Collaborators) (ns : List String) (first : Bool) :
    PDFArray.PDFString.loop c (ns.map PDFObject.PDFName) first [] =
      some (ns.map PDFName.PDFString) := by
  induction ns generalizing first with
  | nil => rfl
  | cons n rest ih =>
    rw [List.map_cons, PDFString_loop_cons]
    simp only [PDFArray.PDFString.entry]
    rw [PDFString_loop_log, ih]
    simp

/-- The pieces of a run of integers that does not start the collection: each decimal
form behind one space. -/
theorem PDFString_loop_integers (c : Collaborators) (is : List Int) :
    PDFArray.PDFString.loop c (is.map PDFObject.PDFInteger) false [] =
      some (is.map (fun i => " " ++ PDFInteger.String i)) := by
  induction is with
  | nil => rfl
  | cons n rest ih =>
    rw [List.map_cons, PDFString_loop_cons]
    simp only [PDFArray.PDFString.entry]
    rw [PDFString_loop_log, ih]
    simp

/-! ## Claims C5 to C7: canonical form of built collections -/

/-- C5, counterexample: the canonical form of NewNameArray("A","B") is `[/A/B]`, not
`[/A /B]`: the PDFName branch (line 178) appends the name without the separator. -/
theorem C5_counterexample :
    PDFArray.PDFString sampleCollaborators (PDFArray.NewNameArray ["A", "B"]) = some "[/A/B]" ∧
      PDFArray.PDFString sampleCollaborators (PDFArray.NewNameArray ["A", "B"]) ≠
        some ("[" ++ " ".intercalate (["A", "B"].map PDFName.PDFString) ++ "]") ∧
      "[" ++ " ".intercalate (["A", "B"].map PDFName.PDFString) ++ "]" = "[/A /B]" := by
  decide

/-- C5, amended: for every sequence of names n1..nk, the canonical form of
NewNameArray(n1..nk) is '[' followed by the names' canonical forms '/n1' ... '/nk'
one directly after the other, with no separator, followed by ']'; in particular
NewNameArray("A","B") is a 2-element collection whose canonical form is `[/A/B]`. -/
theorem C5_name_array_canonical_form (c : Collaborators) (ns : List String) :
    PDFArray.PDFString c (PDFArray.NewNameArray ns) =
        some ("[" ++ String.join (ns.map PDFName.PDFString) ++ "]") ∧
      (∀ n : String, PDFName.PDFString n = "/" ++ n) ∧
      (PDFArray.NewNameArray ["A", "B"]).length = 2 ∧
      PDFArray.PDFString c (PDFArray.NewNameArray ["A", "B"]) = some "[/A/B]" := by
  have h : ∀ ms : List String, PDFArray.PDFString c (PDFArray.NewNameArray ms) =
      some ("[" ++ String.join (ms.map PDFName.PDFString) ++ "]") := by
    intro ms
    rw [PDFString_eq_pieces, NewNameArray_eq_map, PDFString_loop_names]
    rfl
  refine ⟨h ns, fun _ => rfl, rfl, ?_⟩
  rw [h]
  decide

/-- C6: each of the four builders, called with no argument, yields a collection of
length 0 whose canonical form `PDFString()` is exactly `[]` and whose debug form
`String()` is `[]` as well; the fatal path is not taken (a string is returned). -/
theorem C6_empty_builders_render_brackets (c : Collaborators) :
    ((PDFArray.NewStringArray []).length = 0 ∧
      PDFArray.PDFString c (PDFArray.NewStringArray []) = some "[]" ∧
      PDFArray.String c (PDFArray.NewStringArray []) = some "[]") ∧
    ((PDFArray.NewNameArray []).length = 0 ∧
      PDFArray.PDFString c (PDFArray.NewNameArray []) = some "[]" ∧
      PDFArray.String c (PDFArray.NewNameArray []) = some "[]") ∧
    ((PDFArray.NewNumberArray []).length = 0 ∧
      PDFArray.PDFString c (PDFArray.NewNumberArray []) = some "[]" ∧
      PDFArray.String c (PDFArray.NewNumberArray []) = some "[]") ∧
    ((PDFArray.NewIntegerArray []).length = 0 ∧
      PDFArray.PDFString c (PDFArray.NewIntegerArray []) = some "[]" ∧
      PDFArray.String c (PDFArray.NewIntegerArray []) = some "[]") := by
  refine ⟨⟨rfl, ?_, ?_⟩, ⟨rfl, ?_, ?_⟩, ⟨rfl, ?_, ?_⟩, ⟨rfl, ?_, ?_⟩⟩ <;> rfl

/-- C7: for every sequence of integers i1..ik, the canonical form of
NewIntegerArray(i1..ik) is '[' followed by the decimal forms of i1..ik joined by
exactly one space between consecutive entries (none leading, none trailing), followed
by ']'; for instance `[1 -20 3]`. -/
theorem C7_integer_array_canonical_form (c : Collaborators) (is : List Int) :
    PDFArray.PDFString c (PDFArray.NewIntegerArray is) =
        some ("[" ++ " ".intercalate (is.map (fun i => toString i)) ++ "]") ∧
      PDFArray.PDFString c (PDFArray.NewIntegerArray [1, -20, 3]) = some "[1 -20 3]" := by
  have h : ∀ js : List Int, PDFArray.PDFString c (PDFArray.NewIntegerArray js) =
      some ("[" ++ " ".intercalate (js.map (fun i => toString i)) ++ "]") := by
    intro js
    rw [PDFString_eq_pieces, NewIntegerArray_eq_map]
    cases js with
    | nil => rfl
    | cons n rest =>
      rw [List.map_cons, PDFString_loop_cons]
      simp only [PDFArray.PDFString.entry]
      rw [PDFString_loop_log, PDFString_loop_integers]
      simp only [Option.map_some', List.map_cons, intercalate_cons, List.nil_append,
        List.singleton_append, join_cons, List.map_map]
      congr 3
  refine ⟨h is, ?_⟩
  rw [h]
  decide

/-! ## Canonical rendering: when the loop fails -/

mutual
theorem PDFString_entry_none_of_unknown (c : Collaborators)
    (hfatal : ∀ msg : String, c.fatalfReturns msg = false) :
    ∀ (e : PDFObject) (sep : String), entryHoldsUnknown e = true →
      PDFArray.PDFString.entry c sep e = none
  | .other _ _, _, _ => by simp only [PDFArray.PDFString.entry, hfatal, Bool.false_eq_true,
      if_false]
  | .PDFArray a, sep, h => by
    have h1 : arrayHoldsUnknown a = true := by simpa [entryHoldsUnknown] using h
    have := PDFString_loop_none_of_unknown c hfatal a true ["["] h1
    simp [PDFArray.PDFString.entry, this]
  | .null, _, h => by simp [entryHoldsUnknown] at h
  | .PDFDict _, _, h => by simp [entryHoldsUnknown] at h
  | .PDFIndirectRef _ _, _, h => by simp [entryHoldsUnknown] at h
  | .PDFName _, _, h => by simp [entryHoldsUnknown] at h
  | .PDFInteger _, _, h => by simp [entryHoldsUnknown] at h
  | .PDFFloat _, _, h => by simp [entryHoldsUnknown] at h
  | .PDFBoolean _, _, h => by simp [entryHoldsUnknown] at h
  | .PDFStringLiteral _, _, h => by simp [entryHoldsUnknown] at h
  | .PDFHexLiteral _, _, h => by simp [entryHoldsUnknown] at h
theorem PDFString_loop_none_of_unknown (c : Collaborators)
    (hfatal : ∀ msg : String, c.fatalfReturns msg = false) :
    ∀ (l : List PDFObject) (first : Bool) (log : List String), arrayHoldsUnknown l = true →
      PDFArray.PDFString.loop c l first log = none
  | [], _, _, h => by simp [arrayHoldsUnknown] at h
  | e :: rest, first, log, h => by
    rw [PDFString_loop_cons]
    cases he : PDFArray.PDFString.entry c (if first then "" else " ") e with
    | none => rfl
    | some s =>
      simp only []
      have h1 : arrayHoldsUnknown rest = true := by
        simp only [arrayHoldsUnknown, Bool.or_eq_true] at h
        rcases h with h | h
        · rw [PDFString_entry_none_of_unknown c hfatal e _ h] at he
          simp at he
        · exact h
      exact PDFString_loop_none_of_unknown c hfatal rest false _ h1
end

mutual
theorem PDFString_entry_some_of_known (c : Collaborators) :
    ∀ (e : PDFObject) (sep : String), entryDictsRender c e = true →
      entryHoldsUnknown e = false → ∃ s, PDFArray.PDFString.entry c sep e = some s
  | .other _ _, _, _, h => by simp [entryHoldsUnknown] at h
  | .PDFArray a, sep, hd, h => by
    have h1 : arrayHoldsUnknown a = false := by simpa [entryHoldsUnknown] using h
    have h2 : arrayDictsRender c a = true := by simpa [entryDictsRender] using hd
    obtain ⟨l, hl⟩ := PDFString_loop_some_of_known c a true ["["] h2 h1
    exact ⟨String.join (l ++ ["]"]), by simp only [PDFArray.PDFString.entry, hl]⟩
  | .PDFDict d, _, hd, _ => by
    have h2 : (c.dictPDFString d).isSome = true := by simpa [entryDictsRender] using hd
    obtain ⟨s, hs⟩ := Option.isSome_iff_exists.1 h2
    exact ⟨s, by simp only [PDFArray.PDFString.entry, hs]⟩
  | .null, _, _, _ => ⟨_, rfl⟩
  | .PDFIndirectRef _ _, _, _, _ => ⟨_, rfl⟩
  | .PDFName _, _, _, _ => ⟨_, rfl⟩
  | .PDFInteger _, _, _, _ => ⟨_, rfl⟩
  | .PDFFloat _, _, _, _ => ⟨_, rfl⟩
  | .PDFBoolean _, _, _, _ => ⟨_, rfl⟩
  | .PDFStringLiteral _, _, _, _ => ⟨_, rfl⟩
  | .PDFHexLiteral _, _, _, _ => ⟨_, rfl⟩
theorem PDFString_loop_some_of_known (c : Collaborators) :
    ∀ (l : List PDFObject) (first : Bool) (log : List String), arrayDictsRender c l = true →
      arrayHoldsUnknown l = false → ∃ out, PDFArray.PDFString.loop c l first log = some out
  | [], _, log, _, _ => ⟨log, rfl⟩
  | e :: rest, first, log, hd, h => by
    simp only [arrayHoldsUnknown, Bool.or_eq_false_iff] at h
    simp only [arrayDictsRender, Bool.and_eq_true] at hd
    obtain ⟨s, hs⟩ := PDFString_entry_some_of_known c e (if first then "" else " ") hd.1 h.1
    obtain ⟨out, hout⟩ := PDFString_loop_some_of_known c rest false (log ++ [s]) hd.2 h.2
    exact ⟨out, by rw [PDFString_loop_cons, hs]; exact hout⟩
end

/-- Whether the loop body falls through to the fatal call does not depend on the
separator. -/
theorem PDFString_entry_none_sep (c : Collaborators) (e : PDFObject) (sep1 sep2 : String) :
    PDFArray.PDFString.entry c sep1 e = none ↔ PDFArray.PDFString.entry c sep2 e = none := by
  cases e <;> simp [PDFArray.PDFString.entry]

/-- The loop fails exactly when the loop body fails on some entry. -/
theorem PDFString_loop_none_iff (c : Collaborators) (array : List PDFObject) (first : Bool)
    (log : List String) :
    PDFArray.PDFString.loop c array first log = none ↔
      ∃ e ∈ array, PDFArray.PDFString.entry c "" e = none := by
  induction array generalizing first log with
  | nil => simp [PDFString_loop_nil]
  | cons x rest ih =>
    rw [PDFString_loop_cons]
    cases hx : PDFArray.PDFString.entry c (if first then "" else " ") x with
    | none =>
      simp only [List.mem_cons, exists_eq_or_imp, true_iff]
      exact Or.inl ((PDFString_entry_none_sep c x _ _).1 hx)
    | some s =>
      simp only [List.mem_cons, exists_eq_or_imp]
      rw [ih]
      constructor
      · exact fun h => Or.inr h
      · rintro (h | h)
        · rw [(PDFString_entry_none_sep c x _ _).1 h] at hx
          simp at hx
        · exact h

theorem PDFString_none_iff (c : Collaborators) (array : PDFArray) :
    PDFArray.PDFString c array = none ↔
      ∃ e ∈ array, PDFArray.PDFString.entry c "" e = none := by
  rw [← PDFString_loop_none_iff c array true ["["]]
  unfold PDFArray.PDFString
  cases PDFArray.PDFString.loop c array true ["["] <;> simp

theorem PDFString_none_iff_loop (c : Collaborators) (array : PDFArray) (log : List String) :
    PDFArray.PDFString c array = none ↔ PDFArray.PDFString.loop c array true log = none := by
  rw [PDFString_none_iff, PDFString_loop_none_iff]

/-! ## Claims C8 to C10: nested collections, null entries and the fatal path -/

/-- C8: in `PDFString`, let `ps` be the strings the loop appends for the entries of a
collection (the result is '[' ++ ps joined ++ ']', one string per entry).  For every
index i whose entry is a nested ordered collection a, the string at index i is exactly
`a.PDFString()`, and for a nested keyed collection d it is exactly `d.PDFString()`:
no separator before it, at index 0 and at every index > 0 alike; an Integer entry at an
index > 0 (so also one that follows a nested collection) is preceded by one space.
So [[1 2] 3] renders as `[[1 2] 3]` and [3 [1 2]] renders as `[3[1 2]]`. -/
theorem C8_nested_collection_without_separator (c : Collaborators) (array : PDFArray)
    (ps : List String) (h : PDFArray.PDFString.loop c array true [] = some ps) :
    PDFArray.PDFString c array = some ("[" ++ String.join ps ++ "]") ∧
    ps.length = array.length ∧
    (∀ (i : Nat) (a : PDFArray), array[i]? = some (.PDFArray a) →
      ∃ sa, PDFArray.PDFString c a = some sa ∧ ps[i]? = some sa) ∧
    (∀ (i : Nat) (d : PDFDict), array[i]? = some (.PDFDict d) →
      ∃ sd, c.dictPDFString d = some sd ∧ ps[i]? = some sd) ∧
    (∀ (i : Nat) (n : Int), 0 < i → array[i]? = some (.PDFInteger n) →
      ps[i]? = some (" " ++ PDFInteger.String n)) ∧
    PDFArray.PDFString c [.PDFArray [.PDFInteger 1, .PDFInteger 2], .PDFInteger 3]
      = some "[[1 2] 3]" ∧
    PDFArray.PDFString c [.PDFInteger 3, .PDFArray [.PDFInteger 1, .PDFInteger 2]]
      = some "[3[1 2]]" := by
  obtain ⟨hlen, hidx⟩ := PDFString_loop_pieces c array true ps h
  have hsome : ∀ (i : Nat) (e : PDFObject), array[i]? = some e → ∃ s, ps[i]? = some s := by
    intro i e hi
    obtain ⟨hlt, _⟩ := List.getElem?_eq_some.1 hi
    exact ⟨ps[i], List.getElem?_eq_getElem (by omega)⟩
  refine ⟨by rw [PDFString_eq_pieces, h]; rfl, hlen, ?_, ?_, ?_, rfl, rfl⟩
  · intro i a hi
    obtain ⟨s, hs⟩ := hsome i _ hi
    have := hidx i _ hi
    rw [PDFString_entry_array, hs] at this
    exact ⟨s, this, hs⟩
  · intro i d hi
    obtain ⟨s, hs⟩ := hsome i _ hi
    have := hidx i _ hi
    rw [hs] at this
    exact ⟨s, this, hs⟩
  · intro i n hpos hi
    have := hidx i _ hi
    have hne : ¬ (true = true ∧ i = 0) := by omega
    rw [if_neg hne] at this
    rw [← this]
    rfl

/-- C8, witness: the collection [3 [1 2] <<>> 4]. -/
theorem C8_nested_collection_without_separator_witness :
    PDFArray.PDFString.loop sampleCollaborators
        [.PDFInteger 3, .PDFArray [.PDFInteger 1, .PDFInteger 2], .PDFDict [], .PDFInteger 4]
        true [] = some ["3", "[1 2]", "<<>>", " 4"] ∧
      PDFArray.PDFString sampleCollaborators
        [.PDFInteger 3, .PDFArray [.PDFInteger 1, .PDFInteger 2], .PDFDict [], .PDFInteger 4]
        = some ("[" ++ String.join ["3", "[1 2]", "<<>>", " 4"] ++ "]") ∧
      "[" ++ String.join ["3", "[1 2]", "<<>>", " 4"] ++ "]" = "[3[1 2]<<>> 4]" :=
  ⟨by decide,
    (C8_nested_collection_without_separator sampleCollaborators
      [.PDFInteger 3, .PDFArray [.PDFInteger 1, .PDFInteger 2], .PDFDict [], .PDFInteger 4]
      ["3", "[1 2]", "<<>>", " 4"] (by decide)).1,
    by decide⟩

/-- C9: in `PDFString`, let `ps` be the strings the loop appends for the entries of a
collection.  For every index i whose entry is nil the string at index i is the token
`null`, preceded by a single space unless i = 0; a nil entry never triggers the fatal
path (with or without it, the fatal path is taken in the same cases).  The one-entry
collection [nil] renders as `[null]` and [1, nil, 2] renders as `[1 null 2]`. -/
theorem C9_null_renders_as_null (c : Collaborators) (array : PDFArray)
    (ps : List String) (h : PDFArray.PDFString.loop c array true [] = some ps) :
    PDFArray.PDFString c array = some ("[" ++ String.join ps ++ "]") ∧
    (∀ i : Nat, array[i]? = some PDFObject.null →
      ps[i]? = some ((if i = 0 then "" else " ") ++ "null")) ∧
    (∀ pre post : PDFArray,
      PDFArray.PDFString c (pre ++ PDFObject.null :: post) = none ↔
        PDFArray.PDFString c (pre ++ post) = none) ∧
    PDFArray.PDFString c [PDFObject.null] = some "[null]" ∧
    PDFArray.PDFString c [.PDFInteger 1, PDFObject.null, .PDFInteger 2] = some "[1 null 2]" := by
  obtain ⟨_, hidx⟩ := PDFString_loop_pieces c array true ps h
  refine ⟨by rw [PDFString_eq_pieces, h]; rfl, ?_, ?_, rfl, rfl⟩
  · intro i hi
    have := hidx i _ hi
    rw [← this]
    by_cases h0 : i = 0 <;> simp [h0, PDFArray.PDFString.entry]
  · intro pre post
    rw [PDFString_none_iff, PDFString_none_iff]
    constructor
    · rintro ⟨e, he, hnone⟩
      rcases List.mem_append.1 he with hp | hp
      · exact ⟨e, List.mem_append.2 (Or.inl hp), hnone⟩
      · rcases List.mem_cons.1 hp with rfl | hp
        · simp [PDFArray.PDFString.entry] at hnone
        · exact ⟨e, List.mem_append.2 (Or.inr hp), hnone⟩
    · rintro ⟨e, he, hnone⟩
      rcases List.mem_append.1 he with hp | hp
      · exact ⟨e, List.mem_append.2 (Or.inl hp), hnone⟩
      · exact ⟨e, List.mem_append.2 (Or.inr (List.mem_cons_of_mem _ hp)), hnone⟩

/-- C9, witness: the collection [nil 1 nil]. -/
theorem C9_null_renders_as_null_witness :
    PDFArray.PDFString.loop sampleCollaborators [PDFObject.null, .PDFInteger 1, PDFObject.null]
        true [] = some ["null", " 1", " null"] ∧
      PDFArray.PDFString sampleCollaborators [PDFObject.null, .PDFInteger 1, PDFObject.null]
        = some ("[" ++ String.join ["null", " 1", " null"] ++ "]") ∧
      "[" ++ String.join ["null", " 1", " null"] ++ "]" = "[null 1 null]" :=
  ⟨by decide,
    (C9_null_renders_as_null sampleCollaborators
      [PDFObject.null, .PDFInteger 1, PDFObject.null] ["null", " 1", " null"] (by decide)).1,
    by decide⟩

/-- When `log.Info.Fatalf` returns to its caller, the loop goes on behind an entry of
an unknown type: the entry adds nothing to the result and the next entry is written
behind one space. -/
theorem PDFString_goes_on_when_Fatalf_returns (c : Collaborators) (typeName str : String)
    (rest : PDFArray)
    (h : c.fatalfReturns ("PDFArray.PDFString(): entry of unknown object type: " ++ typeName
      ++ " " ++ str ++ "\n") = true) :
    PDFArray.PDFString.loop c (PDFObject.other typeName str :: rest) true [] =
      (PDFArray.PDFString.loop c rest false []).map ("" :: ·) := by
  rw [PDFString_loop_cons]
  simp only [PDFArray.PDFString.entry, h, if_true]
  rw [PDFString_loop_log]
  rfl

/-- C10: `log.Info.Fatalf` being the log-and-abort call of the spec (it does not return)
and the nested keyed collections rendering without fault, `PDFString` takes the fatal
path (the process ends in `log.Info.Fatalf`, no string is returned) if and only if
some entry of the collection, or of an ordered collection nested in it at any depth,
is non-nil and of a variant other than PDFDict, PDFArray, PDFIndirectRef, PDFName,
PDFInteger, PDFFloat, PDFBoolean, PDFStringLiteral, PDFHexLiteral; in every other
case it returns a string (whatever `log.Info.Fatalf` does); and it never returns a
string for a collection that holds such an entry. -/
theorem C10_fatal_iff_unknown_variant (c : Collaborators) (array : PDFArray)
    (hd : arrayDictsRender c array = true)
    (hfatal : ∀ msg : String, c.fatalfReturns msg = false) :
    (PDFArray.PDFString c array = none ↔ arrayHoldsUnknown array = true) ∧
    (arrayHoldsUnknown array = false → ∃ s, PDFArray.PDFString c array = some s) ∧
    (∀ c2 : Collaborators, arrayDictsRender c2 array = true →
      arrayHoldsUnknown array = false → ∃ s, PDFArray.PDFString c2 array = some s) ∧
    (∀ array2 : PDFArray, arrayHoldsUnknown array2 = true →
      PDFArray.PDFString c array2 = none) := by
  have hnone : ∀ array2 : PDFArray, arrayHoldsUnknown array2 = true →
      PDFArray.PDFString c array2 = none := by
    intro array2 h2
    rw [PDFString_none_iff_loop c array2 ["["]]
    exact PDFString_loop_none_of_unknown c hfatal array2 true ["["] h2
  have hok : ∀ c2 : Collaborators, arrayDictsRender c2 array = true →
      arrayHoldsUnknown array = false → ∃ s, PDFArray.PDFString c2 array = some s := by
    intro c2 hd2 hk
    obtain ⟨out, hout⟩ := PDFString_loop_some_of_known c2 array true ["["] hd2 hk
    exact ⟨String.join (out ++ ["]"]), by simp only [PDFArray.PDFString, hout]⟩
  refine ⟨⟨?_, hnone array⟩, hok c hd, hok, hnone⟩
  intro h
  cases hk : arrayHoldsUnknown array with
  | true => rfl
  | false =>
    obtain ⟨s, hs⟩ := hok c hd hk
    rw [hs] at h
    simp at h

/-- C10, witness: [1 [2 x] <<>>], where x is a value of a type that `PDFString` does
not test for, takes the fatal path. -/
theorem C10_fatal_iff_unknown_variant_witness :
    arrayDictsRender sampleCollaborators
        [.PDFInteger 1, .PDFArray [.PDFInteger 2, .other "pdfcpu.PDFStreamDict" "x"],
          .PDFDict []] = true ∧
      (∀ msg : String, sampleCollaborators.fatalfReturns msg = false) ∧
      arrayHoldsUnknown
        [.PDFInteger 1, .PDFArray [.PDFInteger 2, .other "pdfcpu.PDFStreamDict" "x"],
          .PDFDict []] = true ∧
      PDFArray.PDFString sampleCollaborators
        [.PDFInteger 1, .PDFArray [.PDFInteger 2, .other "pdfcpu.PDFStreamDict" "x"],
          .PDFDict []] = none :=
  ⟨by decide, fun _ => rfl, by decide,
    (C10_fatal_iff_unknown_variant sampleCollaborators
      [.PDFInteger 1, .PDFArray [.PDFInteger 2, .other "pdfcpu.PDFStreamDict" "x"],
        .PDFDict []] (by decide) (fun _ => rfl)).1.2 (by decide)⟩

/-! ## Debug rendering: helper lemmas -/

theorem Repeat_of_nonneg (s : String) (count : Int) (h : 0 ≤ count) :
    strings.Repeat s count = some (String.join (List.replicate count.toNat s)) := by
  unfold strings.Repeat
  rw [if_neg (by omega)]

theorem Repeat_of_neg (s : String) (count : Int) (h : count < 0) :
    strings.Repeat s count = none := by
  unfold strings.Repeat
  rw [if_pos h]

theorem indentedString_loop_nil (c : Collaborators) (level : Int) (tab : String) (first : Bool)
    (log : List String) :
    PDFArray.indentedString.loop c level tab [] first log = some log := rfl

theorem indentedString_loop_cons (c : Collaborators) (level : Int) (tab : String)
    (e : PDFObject) (rest : List PDFObject) (first : Bool) (log : List String) :
    PDFArray.indentedString.loop c level tab (e :: rest) first log =
      match PDFArray.indentedString.entry c level tab (if first then "" else " ") e with
      | none => none
      | some s => PDFArray.indentedString.loop c level tab rest (firstAfter e) (log ++ [s]) := by
  cases e <;> rfl

/-- The loop only appends to `logstr`. -/
theorem indentedString_loop_log (c : Collaborators) (level : Int) (tab : String)
    (array : List PDFObject) (first : Bool) (log : List String) :
    PDFArray.indentedString.loop c level tab array first log =
      (PDFArray.indentedString.loop c level tab array first []).map (log ++ ·) := by
  induction array generalizing first log with
  | nil => simp [indentedString_loop_nil]
  | cons e rest ih =>
    rw [indentedString_loop_cons, indentedString_loop_cons]
    cases PDFArray.indentedString.entry c level tab (if first then "" else " ") e with
    | none => rfl
    | some s =>
      simp only []
      rw [ih _ (log ++ [s]), ih _ ([] ++ [s])]
      cases PDFArray.indentedString.loop c level tab rest (firstAfter e) [] with
      | none => rfl
      | some ps => simp

/-- `indentedString` in terms of `tabstr` and of the pieces the loop appends. -/
theorem indentedString_eq_pieces (c : Collaborators) (array : PDFArray) (level : Int) :
    PDFArray.indentedString c array level =
      (strings.Repeat "\t" level).bind (fun tab =>
        (PDFArray.indentedString.loop c level tab array true []).map
          (fun ps => "[" ++ String.join ps ++ "]")) := by
  unfold PDFArray.indentedString
  cases strings.Repeat "\t" level with
  | none => rfl
  | some tab =>
    simp only [Option.some_bind]
    rw [indentedString_loop_log]
    cases PDFArray.indentedString.loop c level tab array true [] with
    | none => rfl
    | some ps =>
      simp only [Option.map_some']
      congr 1
      rw [join_append, join_append, join_singleton, join_singleton]

/-- The string appended for a nested array is the current separator followed by the
result of its own `indentedString(level + 1)`. -/
theorem indentedString_entry_array (c : Collaborators) (level : Int) (tab sep : String)
    (a : PDFArray) :
    PDFArray.indentedString.entry c level tab sep (.PDFArray a) =
      (PDFArray.indentedString c a (level + 1)).map (sep ++ ·) := by
  simp only [PDFArray.indentedString.entry, PDFArray.indentedString]
  cases strings.Repeat "\t" (level + 1) with
  | none => rfl
  | some tab1 =>
    simp only []
    cases PDFArray.indentedString.loop c (level + 1) tab1 a true ["["] with
    | none => rfl
    | some ps => rfl

/-- The string appended for an entry that is neither a dict nor an array is the
separator followed by the entry's debug form. -/
theorem indentedString_entry_scalar (c : Collaborators) (level : Int) (tab sep : String)
    (e : PDFObject) (f : String) (h : debugForm c e = some f) :
    PDFArray.indentedString.entry c level tab sep e = some (sep ++ f) := by
  cases e <;> simp only [debugForm, Option.some.injEq] at h <;> try subst h
  all_goals first
    | rfl
    | exact absurd h (by simp)

theorem separatorAt_one (x : PDFObject) (rest : List PDFObject) :
    separatorAt (x :: rest) 1 = if firstAfter x = true then "" else " " := by
  cases x <;> simp [separatorAt, firstAfter]

theorem separatorAt_succ_succ (x : PDFObject) (rest : List PDFObject) (k : Nat) :
    separatorAt (x :: rest) (k + 2) = separatorAt rest (k + 1) := by
  simp [separatorAt]

/-- The pieces of a successful loop of `indentedString`: one per entry, the one at
index `i` being what the loop body appends for the entry at index `i` with the
separator of that position (at index 0 the one that `first` dictates). -/
theorem indentedString_loop_pieces (c : Collaborators) (level : Int) (tab : String)
    (array : List PDFObject) (first : Bool) (ps : List String)
    (h : PDFArray.indentedString.loop c level tab array first [] = some ps) :
    ps.length = array.length ∧
      ∀ (i : Nat) (e : PDFObject), array[i]? = some e →
        PDFArray.indentedString.entry c level tab
          (if i = 0 then (if first = true then "" else " ") else separatorAt array i) e
          = ps[i]? := by
  induction array generalizing first ps with
  | nil =>
    rw [indentedString_loop_nil] at h
    simp only [Option.some.injEq] at h
    subst h
    simp
  | cons x rest ih =>
    rw [indentedString_loop_cons] at h
    cases hx : PDFArray.indentedString.entry c level tab (if first then "" else " ") x with
    | none => rw [hx] at h; simp at h
    | some s =>
      rw [hx] at h
      simp only [] at h
      rw [indentedString_loop_log] at h
      cases hr : PDFArray.indentedString.loop c level tab rest (firstAfter x) [] with
      | none => rw [hr] at h; simp at h
      | some qs =>
        rw [hr] at h
        simp only [Option.map_some', Option.some.injEq] at h
        subst h
        obtain ⟨hlen, hidx⟩ := ih _ qs hr
        refine ⟨by simp [hlen], ?_⟩
        intro i e hi
        cases i with
        | zero =>
          simp only [List.getElem?_cons_zero, Option.some.injEq] at hi
          subst hi
          simpa using hx
        | succ j =>
          simp only [List.getElem?_cons_succ] at hi
          have hj := hidx j e hi
          have hsep : (if j + 1 = 0 then (if first = true then "" else " ")
              else separatorAt (x :: rest) (j + 1)) =
              (if j = 0 then (if firstAfter x = true then "" else " ")
                else separatorAt rest j) := by
            cases j with
            | zero => simp [separatorAt_one]
            | succ k => simp [separatorAt_succ_succ]
          rw [hsep, hj]
          simp

/-- The pieces of the loop started in the initial state (`first` set). -/
theorem indentedString_pieces (c : Collaborators) (level : Int) (tab : String)
    (array : List PDFObject) (ps : List String)
    (h : PDFArray.indentedString.loop c level tab array true [] = some ps) :
    ps.length = array.length ∧
      ∀ (i : Nat) (e : PDFObject), array[i]? = some e →
        PDFArray.indentedString.entry c level tab (separatorAt array i) e = ps[i]? := by
  obtain ⟨hlen, hidx⟩ := indentedString_loop_pieces c level tab array true ps h
  refine ⟨hlen, ?_⟩
  intro i e hi
  have := hidx i e hi
  cases i with
  | zero => simpa [separatorAt] using this
  | succ j => simpa using this

theorem firstAfter_of_debugForm (c : Collaborators) (x : PDFObject) (f : String)
    (h : debugForm c x = some f) : firstAfter x = false := by
  cases x <;> first | rfl | (simp [debugForm] at h)

/-- On entries that are neither dicts nor arrays the loop appends the debug forms,
each behind one space when `first` is not set. -/
theorem indentedString_loop_flat (c : Collaborators) (level : Int) (tab : String)
    (array : List PDFObject) (forms : List String)
    (hflat : array.map (debugForm c) = forms.map some) :
    PDFArray.indentedString.loop c level tab array false [] =
      some (forms.map (fun f => " " ++ f)) := by
  induction array generalizing forms with
  | nil =>
    cases forms with
    | nil => rfl
    | cons f fs => simp at hflat
  | cons x rest ih =>
    cases forms with
    | nil => simp at hflat
    | cons f fs =>
      simp only [List.map_cons, List.cons.injEq] at hflat
      rw [indentedString_loop_cons, indentedString_entry_scalar c level tab _ x f hflat.1]
      simp only []
      rw [firstAfter_of_debugForm c x f hflat.1, indentedString_loop_log, ih fs hflat.2]
      simp

theorem Repeat_tab_data (level : Int) (tabstr : String)
    (h : strings.Repeat "\t" level = some tabstr) :
    0 ≤ level ∧ tabstr.data = List.replicate level.toNat '\t' := by
  unfold strings.Repeat at h
  by_cases hneg : level < 0
  · rw [if_pos hneg] at h
    simp at h
  · rw [if_neg hneg] at h
    simp only [Option.some.injEq] at h
    subst h
    refine ⟨by omega, ?_⟩
    generalize level.toNat = n
    induction n with
    | zero => rfl
    | succ k ih =>
      rw [List.replicate_succ, join_cons, String.data_append, ih, List.replicate_succ]
      rfl

/-! ## Claims C11 to C13: the debug form -/

/-- C11: for every level and every collection that contains no nested keyed or ordered
collection, `indentedString(level)` is '[' followed by the entries' own debug forms
(fmt %v) in input order, joined by exactly one space, followed by ']'.  The level is a
nesting depth: `String()` passes 1 and every descent passes `level + 1` (lines 108,
115, 129), so `0 ≤ level` holds of every level that `indentedString` receives. -/
theorem C11_flat_debug_form (c : Collaborators) (array : PDFArray) (level : Int)
    (forms : List String) (hlevel : 0 ≤ level)
    (hflat : array.map (debugForm c) = forms.map some) :
    PDFArray.indentedString c array level = some ("[" ++ " ".intercalate forms ++ "]") := by
  rw [indentedString_eq_pieces, Repeat_of_nonneg _ _ hlevel]
  simp only [Option.some_bind]
  cases array with
  | nil =>
    cases forms with
    | nil => rfl
    | cons f fs => simp at hflat
  | cons x rest =>
    cases forms with
    | nil => simp at hflat
    | cons f fs =>
      simp only [List.map_cons, List.cons.injEq] at hflat
      rw [indentedString_loop_cons, indentedString_entry_scalar c level _ _ x f hflat.1]
      simp only []
      rw [firstAfter_of_debugForm c x f hflat.1, indentedString_loop_log,
        indentedString_loop_flat c level _ rest fs hflat.2]
      simp only [Option.map_some', intercalate_cons, List.nil_append, List.singleton_append,
        join_cons, if_true]
      congr 3

/-- C11, witness: the flat collection [1 nil /A] at level 3. -/
theorem C11_flat_debug_form_witness :
    (0 : Int) ≤ 3 ∧
      ([.PDFInteger 1, PDFObject.null, .PDFName "A"] : PDFArray).map
          (debugForm sampleCollaborators) = ["1", "<nil>", "A"].map some ∧
      PDFArray.indentedString sampleCollaborators
          [.PDFInteger 1, PDFObject.null, .PDFName "A"] 3
        = some ("[" ++ " ".intercalate ["1", "<nil>", "A"] ++ "]") ∧
      "[" ++ " ".intercalate ["1", "<nil>", "A"] ++ "]" = "[1 <nil> A]" :=
  ⟨by decide, by decide,
    C11_flat_debug_form sampleCollaborators [.PDFInteger 1, PDFObject.null, .PDFName "A"] 3
      ["1", "<nil>", "A"] (by decide) (by decide),
    by decide⟩

/-- C12: in `indentedString(level)`, let `tabstr` be the `level` tab characters and
`ps` the strings the loop appends for the entries (the result is '[' ++ ps joined ++
']', one string per entry).  For every index i whose entry is a nested keyed
collection d the string at index i is exactly: newline, `tabstr`,
`d.indentedString(level+1)`, newline, `tabstr`, with no separator before it; and the
entry immediately after it is emitted with no leading separator, be it a scalar (its
debug form) or a nested ordered collection (its `indentedString(level+1)`).  For
scalars x, y the collection [x, d, y] renders as
'[' + x + '\n' + tabs + d.indentedString(level+1) + '\n' + tabs + y + ']'. -/
theorem C12_nested_dict_block (c : Collaborators) (array : PDFArray) (level : Int)
    (tabstr : String) (ps : List String)
    (htab : strings.Repeat "\t" level = some tabstr)
    (h : PDFArray.indentedString.loop c level tabstr array true [] = some ps) :
    PDFArray.indentedString c array level = some ("[" ++ String.join ps ++ "]") ∧
    ps.length = array.length ∧
    tabstr.data = List.replicate level.toNat '\t' ∧
    (∀ (i : Nat) (d : PDFDict), array[i]? = some (.PDFDict d) →
      ps[i]? = some ("\n" ++ tabstr ++ c.dictIndentedString d (level + 1) ++ "\n" ++ tabstr)) ∧
    (∀ (i : Nat) (d : PDFDict) (e : PDFObject) (f : String),
      array[i]? = some (.PDFDict d) → array[i + 1]? = some e → debugForm c e = some f →
      ps[i + 1]? = some f) ∧
    (∀ (i : Nat) (d : PDFDict) (a : PDFArray),
      array[i]? = some (.PDFDict d) → array[i + 1]? = some (.PDFArray a) →
      ∃ sa, PDFArray.indentedString c a (level + 1) = some sa ∧ ps[i + 1]? = some sa) ∧
    (∀ (x y : PDFObject) (d : PDFDict) (fx fy : String),
      debugForm c x = some fx → debugForm c y = some fy →
      PDFArray.indentedString c [x, .PDFDict d, y] level =
        some ("[" ++ fx ++ "\n" ++ tabstr ++ c.dictIndentedString d (level + 1) ++ "\n"
          ++ tabstr ++ fy ++ "]")) := by
  obtain ⟨hlen, hidx⟩ := indentedString_pieces c level tabstr array ps h
  have hsep : ∀ (i : Nat) (d : PDFDict), array[i]? = some (.PDFDict d) →
      separatorAt array (i + 1) = "" := by
    intro i d hi
    simp [separatorAt, hi]
  refine ⟨?_, hlen, (Repeat_tab_data level tabstr htab).2, ?_, ?_, ?_, ?_⟩
  · rw [indentedString_eq_pieces, htab]
    simp only [Option.some_bind, h, Option.map_some']
  · intro i d hi
    rw [← hidx i _ hi]
    rfl
  · intro i d e f hi he hf
    rw [← hidx (i + 1) e he, hsep i d hi, indentedString_entry_scalar c level tabstr "" e f hf]
    simp
  · intro i d a hi ha
    have hp := hidx (i + 1) _ ha
    rw [hsep i d hi, indentedString_entry_array] at hp
    obtain ⟨hlt, _⟩ := List.getElem?_eq_some.1 ha
    have hs : ps[i + 1]? = some ps[i + 1] := List.getElem?_eq_getElem (by omega)
    rw [hs] at hp
    cases ha2 : PDFArray.indentedString c a (level + 1) with
    | none => rw [ha2] at hp; simp at hp
    | some sa =>
      rw [ha2] at hp
      simp only [Option.map_some', Option.some.injEq] at hp
      refine ⟨sa, rfl, ?_⟩
      rw [hs, ← hp]
      simp
  · intro x y d fx fy hx hy
    rw [indentedString_eq_pieces, htab]
    simp only [Option.some_bind]
    rw [indentedString_loop_cons, indentedString_entry_scalar c level tabstr _ x fx hx]
    simp only []
    rw [firstAfter_of_debugForm c x fx hx, indentedString_loop_cons]
    simp only [PDFArray.indentedString.entry, firstAfter]
    rw [indentedString_loop_cons, indentedString_entry_scalar c level tabstr _ y fy hy]
    simp only [indentedString_loop_nil, Option.map_some', Option.some.injEq]
    apply String.ext
    simp [String.join]

/-- C12, witness: the collection [3 <<>> 4] at level 2. -/
theorem C12_nested_dict_block_witness :
    strings.Repeat "\t" 2 = some "\t\t" ∧
      PDFArray.indentedString.loop sampleCollaborators 2 "\t\t"
          [.PDFInteger 3, .PDFDict [], .PDFInteger 4] true []
        = some ["3", "\n\t\t<<>>\n\t\t", "4"] ∧
      PDFArray.indentedString sampleCollaborators [.PDFInteger 3, .PDFDict [], .PDFInteger 4] 2
        = some ("[" ++ String.join ["3", "\n\t\t<<>>\n\t\t", "4"] ++ "]") ∧
      "[" ++ String.join ["3", "\n\t\t<<>>\n\t\t", "4"] ++ "]" = "[3\n\t\t<<>>\n\t\t4]" :=
  ⟨by decide, by decide,
    (C12_nested_dict_block sampleCollaborators [.PDFInteger 3, .PDFDict [], .PDFInteger 4] 2
      "\t\t" ["3", "\n\t\t<<>>\n\t\t", "4"] (by decide) (by decide)).1,
    by decide⟩

/-- C13: in `indentedString(level)`, let `ps` be the strings the loop appends for the
entries.  For every index i whose entry is a nested ordered collection a, the string
at index i is the current separator followed by `a.indentedString(level+1)`, where
the separator is a single space unless the entry is first or directly follows a
nested keyed collection; the separator state is not reset after it (the next entry is
handled with a single space as separator).  So in debug form
(`String()` = `indentedString(1)`) [3 [1 2]] renders as `[3 [1 2]]` and [[1 2] 3] as
`[[1 2] 3]`, and the nested collection is rendered at level 2. -/
theorem C13_nested_array_inline (c : Collaborators) (array : PDFArray) (level : Int)
    (tabstr : String) (ps : List String)
    (htab : strings.Repeat "\t" level = some tabstr)
    (h : PDFArray.indentedString.loop c level tabstr array true [] = some ps) :
    PDFArray.indentedString c array level = some ("[" ++ String.join ps ++ "]") ∧
    (∀ (i : Nat) (a : PDFArray), array[i]? = some (.PDFArray a) →
      ∃ sa, PDFArray.indentedString c a (level + 1) = some sa ∧
        ps[i]? = some (separatorAt array i ++ sa)) ∧
    (∀ i : Nat, (separatorAt array i = "" ∨ separatorAt array i = " ") ∧
      (separatorAt array i = "" ↔
        i = 0 ∨ (0 < i ∧ ∃ d, array[i - 1]? = some (PDFObject.PDFDict d)))) ∧
    (∀ (i : Nat) (a : PDFArray) (e : PDFObject),
      array[i]? = some (.PDFArray a) → array[i + 1]? = some e →
      PDFArray.indentedString.entry c level tabstr " " e = ps[i + 1]?) ∧
    (∀ array2 : PDFArray, PDFArray.String c array2 = PDFArray.indentedString c array2 1) ∧
    PDFArray.String c [.PDFInteger 3, .PDFArray [.PDFInteger 1, .PDFInteger 2]]
      = some "[3 [1 2]]" ∧
    PDFArray.String c [.PDFArray [.PDFInteger 1, .PDFInteger 2], .PDFInteger 3]
      = some "[[1 2] 3]" ∧
    (∀ a : PDFArray, PDFArray.String c [.PDFInteger 3, .PDFArray a] =
      (PDFArray.indentedString c a 2).map (fun sa => "[3 " ++ sa ++ "]")) := by
  obtain ⟨hlen, hidx⟩ := indentedString_pieces c level tabstr array ps h
  refine ⟨?_, ?_, ?_, ?_, fun _ => rfl, rfl, rfl, ?_⟩
  · rw [indentedString_eq_pieces, htab]
    simp only [Option.some_bind, h, Option.map_some']
  · intro i a ha
    have hp := hidx i _ ha
    rw [indentedString_entry_array] at hp
    obtain ⟨hlt, _⟩ := List.getElem?_eq_some.1 ha
    have hs : ps[i]? = some ps[i] := List.getElem?_eq_getElem (by omega)
    rw [hs] at hp
    cases ha2 : PDFArray.indentedString c a (level + 1) with
    | none => rw [ha2] at hp; simp at hp
    | some sa =>
      rw [ha2] at hp
      simp only [Option.map_some', Option.some.injEq] at hp
      exact ⟨sa, rfl, by rw [hs, ← hp]⟩
  · intro i
    cases i with
    | zero => simp [separatorAt]
    | succ j =>
      simp only [separatorAt, Nat.add_sub_cancel, Nat.add_one_ne_zero, false_or,
        Nat.zero_lt_succ, true_and]
      cases hj : array[j]? with
      | none => simp
      | some x => cases x <;> simp
  · intro i a e ha he
    rw [← hidx (i + 1) e he]
    simp [separatorAt, ha]
  · intro a
    show PDFArray.indentedString c [.PDFInteger 3, .PDFArray a] 1 = _
    rw [indentedString_eq_pieces, Repeat_of_nonneg _ _ (by decide)]
    simp only [Option.some_bind]
    rw [indentedString_loop_cons]
    simp only [PDFArray.indentedString.entry, firstAfter]
    rw [indentedString_loop_cons, indentedString_entry_array]
    have h2 : (1 : Int) + 1 = 2 := rfl
    rw [h2]
    cases PDFArray.indentedString c a 2 with
    | none => rfl
    | some sa =>
      simp only [Option.map_some', firstAfter, indentedString_loop_nil, Option.some.injEq]
      apply String.ext
      simp [String.join, PDFInteger.String]
      rfl

/-- C13, witness: the collection [<<>> [1] [2] 4] at level 1. -/
theorem C13_nested_array_inline_witness :
    strings.Repeat "\t" 1 = some "\t" ∧
      PDFArray.indentedString.loop sampleCollaborators 1 "\t"
          [.PDFDict [], .PDFArray [.PDFInteger 1], .PDFArray [.PDFInteger 2], .PDFInteger 4]
          true []
        = some ["\n\t<<>>\n\t", "[1]", " [2]", " 4"] ∧
      PDFArray.indentedString sampleCollaborators
          [.PDFDict [], .PDFArray [.PDFInteger 1], .PDFArray [.PDFInteger 2], .PDFInteger 4] 1
        = some ("[" ++ String.join ["\n\t<<>>\n\t", "[1]", " [2]", " 4"] ++ "]") :=
  ⟨by decide, by decide,
    (C13_nested_array_inline sampleCollaborators
      [.PDFDict [], .PDFArray [.PDFInteger 1], .PDFArray [.PDFInteger 2], .PDFInteger 4] 1
      "\t" ["\n\t<<>>\n\t", "[1]", " [2]", " 4"] (by decide) (by decide)).1⟩

/-! ## Debug rendering: totality and the role of the level -/

mutual
theorem indentedString_entry_some (c : Collaborators) :
    ∀ (e : PDFObject) (level : Int) (tab sep : String), 0 ≤ level →
      ∃ s, PDFArray.indentedString.entry c level tab sep e = some s
  | .PDFArray a, level, tab, sep, h => by
    obtain ⟨out, hout⟩ :=
      indentedString_loop_some c a (level + 1)
        (String.join (List.replicate (level + 1).toNat "\t")) true ["["] (by omega)
    exact ⟨sep ++ String.join (out ++ ["]"]), by
      simp only [PDFArray.indentedString.entry, Repeat_of_nonneg "\t" (level + 1) (by omega),
        hout]⟩
  | .PDFDict _, _, _, _, _ => ⟨_, rfl⟩
  | .null, _, _, _, _ => ⟨_, rfl⟩
  | .PDFIndirectRef _ _, _, _, _, _ => ⟨_, rfl⟩
  | .PDFName _, _, _, _, _ => ⟨_, rfl⟩
  | .PDFInteger _, _, _, _, _ => ⟨_, rfl⟩
  | .PDFFloat _, _, _, _, _ => ⟨_, rfl⟩
  | .PDFBoolean _, _, _, _, _ => ⟨_, rfl⟩
  | .PDFStringLiteral _, _, _, _, _ => ⟨_, rfl⟩
  | .PDFHexLiteral _, _, _, _, _ => ⟨_, rfl⟩
  | .other _ _, _, _, _, _ => ⟨_, rfl⟩
theorem indentedString_loop_some (c : Collaborators) :
    ∀ (l : List PDFObject) (level : Int) (tab : String) (first : Bool) (log : List String),
      0 ≤ level → ∃ out, PDFArray.indentedString.loop c level tab l first log = some out
  | [], _, _, _, log, _ => ⟨log, rfl⟩
  | e :: rest, level, tab, first, log, h => by
    obtain ⟨s, hs⟩ := indentedString_entry_some c e level tab (if first then "" else " ") h
    obtain ⟨out, hout⟩ :=
      indentedString_loop_some c rest level tab (firstAfter e) (log ++ [s]) h
    exact ⟨out, by rw [indentedString_loop_cons, hs]; exact hout⟩
end

mutual
theorem indentedString_entry_level (c : Collaborators) :
    ∀ (e : PDFObject) (l1 l2 : Int) (t1 t2 sep : String), 0 ≤ l1 → 0 ≤ l2 →
      entryHoldsDict e = false →
      PDFArray.indentedString.entry c l1 t1 sep e = PDFArray.indentedString.entry c l2 t2 sep e
  | .PDFArray a, l1, l2, t1, t2, sep, h1, h2, hd => by
    have hd1 : arrayHoldsDict a = false := by simpa [entryHoldsDict] using hd
    have := indentedString_loop_level c a (l1 + 1) (l2 + 1)
      (String.join (List.replicate (l1 + 1).toNat "\t"))
      (String.join (List.replicate (l2 + 1).toNat "\t")) true ["["] (by omega) (by omega) hd1
    simp only [PDFArray.indentedString.entry, Repeat_of_nonneg "\t" (l1 + 1) (by omega),
      Repeat_of_nonneg "\t" (l2 + 1) (by omega), this]
  | .PDFDict _, _, _, _, _, _, _, _, hd => by simp [entryHoldsDict] at hd
  | .null, _, _, _, _, _, _, _, _ => rfl
  | .PDFIndirectRef _ _, _, _, _, _, _, _, _, _ => rfl
  | .PDFName _, _, _, _, _, _, _, _, _ => rfl
  | .PDFInteger _, _, _, _, _, _, _, _, _ => rfl
  | .PDFFloat _, _, _, _, _, _, _, _, _ => rfl
  | .PDFBoolean _, _, _, _, _, _, _, _, _ => rfl
  | .PDFStringLiteral _, _, _, _, _, _, _, _, _ => rfl
  | .PDFHexLiteral _, _, _, _, _, _, _, _, _ => rfl
  | .other _ _, _, _, _, _, _, _, _, _ => rfl
theorem indentedString_loop_level (c : Collaborators) :
    ∀ (l : List PDFObject) (l1 l2 : Int) (t1 t2 : String) (first : Bool) (log : List String),
      0 ≤ l1 → 0 ≤ l2 → arrayHoldsDict l = false →
      PDFArray.indentedString.loop c l1 t1 l first log =
        PDFArray.indentedString.loop c l2 t2 l first log
  | [], _, _, _, _, _, _, _, _, _ => rfl
  | e :: rest, l1, l2, t1, t2, first, log, h1, h2, hd => by
    simp only [arrayHoldsDict, Bool.or_eq_false_iff] at hd
    rw [indentedString_loop_cons, indentedString_loop_cons,
      indentedString_entry_level c e l1 l2 t1 t2 _ h1 h2 hd.1]
    cases PDFArray.indentedString.entry c l2 t2 (if first then "" else " ") e with
    | none => rfl
    | some s => exact indentedString_loop_level c rest l1 l2 t1 t2 _ _ h1 h2 hd.2
end

/-! ## Claims C16 to C18 -/

/-- C16: debug rendering is total: for every level and every finitely nested
collection, including collections holding Null entries and entries of variants for
which `PDFString` takes the fatal path, `indentedString(level)` returns a string that
starts with '[' and ends with ']', never reaching a fatal or error branch; in
particular `String()` always does.  The level is a nesting depth: `String()` passes 1
and every descent passes `level + 1` (lines 108, 115, 129), so `0 ≤ level` holds of
every level that `indentedString` receives. -/
theorem C16_debug_rendering_total (c : Collaborators) (array : PDFArray) (level : Int)
    (hlevel : 0 ≤ level) :
    (∃ body, PDFArray.indentedString c array level = some ("[" ++ body ++ "]")) ∧
    (∃ body, PDFArray.String c array = some ("[" ++ body ++ "]")) := by
  have key : ∀ l : Int, 0 ≤ l →
      ∃ body, PDFArray.indentedString c array l = some ("[" ++ body ++ "]") := by
    intro l hl
    obtain ⟨ps, hps⟩ := indentedString_loop_some c array l
      (String.join (List.replicate l.toNat "\t")) true [] hl
    exact ⟨String.join ps, by
      rw [indentedString_eq_pieces, Repeat_of_nonneg _ _ hl]
      simp only [Option.some_bind, hps, Option.map_some']⟩
  exact ⟨key level hlevel, key 1 (by decide)⟩

/-- C16, witness: [nil x [nil]] at level 2, where x is of a type for which
`PDFString` takes the fatal path. -/
theorem C16_debug_rendering_total_witness :
    (0 : Int) ≤ 2 ∧
      PDFArray.PDFString sampleCollaborators
        [PDFObject.null, .other "pdfcpu.PDFStreamDict" "x", .PDFArray [PDFObject.null]] = none ∧
      (∃ body, PDFArray.indentedString sampleCollaborators
        [PDFObject.null, .other "pdfcpu.PDFStreamDict" "x", .PDFArray [PDFObject.null]] 2
          = some ("[" ++ body ++ "]")) :=
  ⟨by decide, by decide,
    (C16_debug_rendering_total sampleCollaborators
      [PDFObject.null, .other "pdfcpu.PDFStreamDict" "x", .PDFArray [PDFObject.null]] 2
      (by decide)).1⟩

/-- C17: `contains` short-circuits on a prefix: if `contains` on xs returns
(true, nil) or returns an error, then `contains` on xs ++ ys returns the identical
result, whatever ys holds; and if `contains` on xs returns (false, nil), then
`contains` on xs ++ ys equals `contains` on ys. -/
theorem C17_contains_short_circuits_on_front {X E : Type}
    (cmp : PDFObject → PDFObject → X → Bool × Option E) (xs ys : PDFArray) (o : PDFObject)
    (t : X) :
    (PDFArray.contains cmp xs o t = (true, none) →
      PDFArray.contains cmp (xs ++ ys) o t = (true, none)) ∧
    (∀ err : E, (PDFArray.contains cmp xs o t).2 = some err →
      PDFArray.contains cmp (xs ++ ys) o t = PDFArray.contains cmp xs o t) ∧
    (PDFArray.contains cmp xs o t = (false, none) →
      PDFArray.contains cmp (xs ++ ys) o t = PDFArray.contains cmp ys o t) := by
  have h := contains_append cmp xs ys o t
  refine ⟨?_, ?_, ?_⟩
  · intro hx
    rw [h, hx]
  · intro err herr
    rw [h]
    rcases hc : PDFArray.contains cmp xs o t with ⟨b, r⟩
    rw [hc] at herr
    simp only at herr
    subst herr
    cases b <;> rfl
  · intro hx
    rw [h, hx]

/-- C17, witness: with 9 0 R dangling and the candidate Integer 5, the front [5]
matches, the front [9 0 R] fails, and the front [/A] hands over to the rest. -/
theorem C17_contains_short_circuits_on_front_witness :
    PDFArray.contains equalPDFObjects ([.PDFInteger 5] ++ [.PDFIndirectRef 9 0])
        (.PDFInteger 5) ⟨[], 8⟩ = (true, none) ∧
      PDFArray.contains equalPDFObjects ([.PDFIndirectRef 9 0] ++ [.PDFInteger 5])
        (.PDFInteger 5) ⟨[], 8⟩
        = PDFArray.contains equalPDFObjects [.PDFIndirectRef 9 0] (.PDFInteger 5) ⟨[], 8⟩ ∧
      PDFArray.contains equalPDFObjects ([.PDFName "A"] ++ [.PDFInteger 5])
        (.PDFInteger 5) ⟨[], 8⟩
        = PDFArray.contains equalPDFObjects [.PDFInteger 5] (.PDFInteger 5) ⟨[], 8⟩ :=
  ⟨(C17_contains_short_circuits_on_front equalPDFObjects [.PDFInteger 5]
      [.PDFIndirectRef 9 0] (.PDFInteger 5) ⟨[], 8⟩).1 (by decide),
    (C17_contains_short_circuits_on_front equalPDFObjects [.PDFIndirectRef 9 0]
      [.PDFInteger 5] (.PDFInteger 5) ⟨[], 8⟩).2.1 "pdfcpu: unresolvable reference" (by decide),
    (C17_contains_short_circuits_on_front equalPDFObjects [.PDFName "A"]
      [.PDFInteger 5] (.PDFInteger 5) ⟨[], 8⟩).2.2 (by decide)⟩

/-- C18: the indentation level only matters through keyed collections: for every
collection that contains no keyed collection at any nesting depth,
`indentedString(l1)` = `indentedString(l2)` for all levels l1 and l2 (so `String()`
equals `indentedString(level)` for every level).  The level is a nesting depth:
`String()` passes 1 and every descent passes `level + 1` (lines 108, 115, 129), so
`0 ≤ l1` and `0 ≤ l2` hold of all levels that `indentedString` receives. -/
theorem C18_level_only_matters_through_dicts (c : Collaborators) (array : PDFArray)
    (l1 l2 : Int) (h1 : 0 ≤ l1) (h2 : 0 ≤ l2) (hd : arrayHoldsDict array = false) :
    PDFArray.indentedString c array l1 = PDFArray.indentedString c array l2 ∧
    PDFArray.String c array = PDFArray.indentedString c array l1 := by
  have key : ∀ a b : Int, 0 ≤ a → 0 ≤ b →
      PDFArray.indentedString c array a = PDFArray.indentedString c array b := by
    intro a b ha hb
    simp only [PDFArray.indentedString, Repeat_of_nonneg "\t" a ha, Repeat_of_nonneg "\t" b hb,
      indentedString_loop_level c array a b _
        (String.join (List.replicate b.toNat "\t")) true ["["] ha hb hd]
  exact ⟨key l1 l2 h1 h2, key 1 l1 (by decide) h1⟩

/-- C18, witness: [1 [nil [2]]] at the levels 1 and 7. -/
theorem C18_level_only_matters_through_dicts_witness :
    (0 : Int) ≤ 1 ∧ (0 : Int) ≤ 7 ∧
      arrayHoldsDict
        [.PDFInteger 1, .PDFArray [PDFObject.null, .PDFArray [.PDFInteger 2]]] = false ∧
      PDFArray.indentedString sampleCollaborators
          [.PDFInteger 1, .PDFArray [PDFObject.null, .PDFArray [.PDFInteger 2]]] 1
        = PDFArray.indentedString sampleCollaborators
          [.PDFInteger 1, .PDFArray [PDFObject.null, .PDFArray [.PDFInteger 2]]] 7 :=
  ⟨by decide, by decide, by decide,
    (C18_level_only_matters_through_dicts sampleCollaborators
      [.PDFInteger 1, .PDFArray [PDFObject.null, .PDFArray [.PDFInteger 2]]] 1 7
      (by decide) (by decide) (by decide)).1⟩

/-! ## The two renderers on integer trees -/

theorem join_length_cons (s : String) (l : List String) :
    (String.join (s :: l)).length = s.length + (String.join l).length := by
  rw [join_cons, String.length_append]

theorem bracketed_length (l : List String) :
    (String.join (["["] ++ l ++ ["]"])).length = (String.join l).length + 2 := by
  rw [join_append, join_append, join_singleton, join_singleton, String.length_append,
    String.length_append]
  have h1 : "[".length = 1 := rfl
  have h2 : "]".length = 1 := rfl
  omega

mutual
theorem integerTree_entry_lengths (c : Collaborators) :
    ∀ (e : PDFObject) (level : Int) (tab sep : String), 0 ≤ level →
      entryIsIntegerTree e = true →
      ∃ d p, PDFArray.indentedString.entry c level tab sep e = some d ∧
        PDFArray.PDFString.entry c sep e = some p ∧ p.length ≤ d.length ∧
        (∀ a, e = PDFObject.PDFArray a → p.length + sep.length ≤ d.length)
  | .PDFInteger i, _, _, sep, _, _ =>
    ⟨sep ++ PDFInteger.String i, sep ++ PDFInteger.String i, rfl, rfl, le_refl _,
      fun _ h => by cases h⟩
  | .PDFArray a, level, tab, sep, hl, ht => by
    have ht1 : arrayIsIntegerTree a = true := by simpa [entryIsIntegerTree] using ht
    obtain ⟨ds, ps, hds, hps, hle, _⟩ := integerTree_loop_lengths c a (level + 1)
      (String.join (List.replicate (level + 1).toNat "\t")) true (by omega) ht1
    refine ⟨sep ++ String.join (["["] ++ ds ++ ["]"]), String.join (["["] ++ ps ++ ["]"]),
      ?_, ?_, ?_, ?_⟩
    · simp only [PDFArray.indentedString.entry, Repeat_of_nonneg "\t" (level + 1) (by omega)]
      rw [indentedString_loop_log, hds]
      rfl
    · simp only [PDFArray.PDFString.entry]
      rw [PDFString_loop_log, hps]
      rfl
    · rw [String.length_append, bracketed_length, bracketed_length]
      omega
    · intro _ _
      rw [String.length_append, bracketed_length, bracketed_length]
      omega
  | .null, _, _, _, _, ht => by simp [entryIsIntegerTree] at ht
  | .PDFDict _, _, _, _, _, ht => by simp [entryIsIntegerTree] at ht
  | .PDFIndirectRef _ _, _, _, _, _, ht => by simp [entryIsIntegerTree] at ht
  | .PDFName _, _, _, _, _, ht => by simp [entryIsIntegerTree] at ht
  | .PDFFloat _, _, _, _, _, ht => by simp [entryIsIntegerTree] at ht
  | .PDFBoolean _, _, _, _, _, ht => by simp [entryIsIntegerTree] at ht
  | .PDFStringLiteral _, _, _, _, _, ht => by simp [entryIsIntegerTree] at ht
  | .PDFHexLiteral _, _, _, _, _, ht => by simp [entryIsIntegerTree] at ht
  | .other _ _, _, _, _, _, ht => by simp [entryIsIntegerTree] at ht
theorem integerTree_loop_lengths (c : Collaborators) :
    ∀ (l : List PDFObject) (level : Int) (tab : String) (first : Bool), 0 ≤ level →
      arrayIsIntegerTree l = true →
      ∃ ds ps, PDFArray.indentedString.loop c level tab l first [] = some ds ∧
        PDFArray.PDFString.loop c l first [] = some ps ∧
        (String.join ps).length ≤ (String.join ds).length ∧
        (first = false → (∃ a, PDFObject.PDFArray a ∈ l) →
          (String.join ps).length < (String.join ds).length)
  | [], _, _, _, _, _ => ⟨[], [], rfl, rfl, le_refl _, fun _ h => by simp at h⟩
  | e :: rest, level, tab, first, hl, ht => by
    simp only [arrayIsIntegerTree, Bool.and_eq_true] at ht
    obtain ⟨d, p, hd, hp, hle, harr⟩ :=
      integerTree_entry_lengths c e level tab (if first then "" else " ") hl ht.1
    obtain ⟨ds, ps, hds, hps, hles, hstrict⟩ :=
      integerTree_loop_lengths c rest level tab false hl ht.2
    have hfa : firstAfter e = false := by
      cases e <;> first | rfl | (simp [entryIsIntegerTree] at ht)
    refine ⟨d :: ds, p :: ps, ?_, ?_, ?_, ?_⟩
    · rw [indentedString_loop_cons, hd]
      simp only []
      rw [hfa, indentedString_loop_log, hds]
      rfl
    · rw [PDFString_loop_cons, hp]
      simp only []
      rw [PDFString_loop_log, hps]
      rfl
    · rw [join_length_cons, join_length_cons]
      omega
    · intro hfirst hex
      rw [join_length_cons, join_length_cons]
      obtain ⟨a, ha⟩ := hex
      rcases List.mem_cons.1 ha with h | h
      · have := harr a h.symm
        rw [hfirst] at this
        have h1 : (if false = true then "" else " ").length = 1 := rfl
        omega
      · have := hstrict rfl ⟨a, h⟩
        omega
end

/-- The debug form of a collection without nested collections, at a level that is not
negative. -/
theorem indentedString_of_flat (c : Collaborators) (array : PDFArray) (level : Int)
    (forms : List String) (hlevel : 0 ≤ level)
    (hflat : array.map (debugForm c) = forms.map some) :
    PDFArray.indentedString c array level = some ("[" ++ " ".intercalate forms ++ "]") := by
  rw [indentedString_eq_pieces, Repeat_of_nonneg _ _ hlevel]
  simp only [Option.some_bind]
  cases array with
  | nil =>
    cases forms with
    | nil => rfl
    | cons f fs => simp at hflat
  | cons x rest =>
    cases forms with
    | nil => simp at hflat
    | cons f fs =>
      simp only [List.map_cons, List.cons.injEq] at hflat
      rw [indentedString_loop_cons, indentedString_entry_scalar c level _ _ x f hflat.1]
      simp only []
      rw [firstAfter_of_debugForm c x f hflat.1, indentedString_loop_log,
        indentedString_loop_flat c level _ rest fs hflat.2]
      simp only [Option.map_some', intercalate_cons, List.nil_append, List.singleton_append,
        join_cons, if_true]
      congr 3

/-- The canonical form of a collection of integers. -/
theorem PDFString_of_integers (c : Collaborators) (is : List Int) :
    PDFArray.PDFString c (is.map PDFObject.PDFInteger) =
      some ("[" ++ " ".intercalate (is.map (fun i => toString i)) ++ "]") := by
  rw [PDFString_eq_pieces]
  cases is with
  | nil => rfl
  | cons n rest =>
    rw [List.map_cons, PDFString_loop_cons]
    simp only [PDFArray.PDFString.entry]
    rw [PDFString_loop_log, PDFString_loop_integers]
    simp only [Option.map_some', List.map_cons, intercalate_cons, List.nil_append,
      List.singleton_append, join_cons, List.map_map]
    congr 3

/-- The debug form of a collection of integers, at a level that is not negative. -/
theorem indentedString_of_integers (c : Collaborators) (is : List Int) (level : Int)
    (hlevel : 0 ≤ level) :
    PDFArray.indentedString c (is.map PDFObject.PDFInteger) level =
      some ("[" ++ " ".intercalate (is.map (fun i => toString i)) ++ "]") := by
  apply indentedString_of_flat c _ level _ hlevel
  simp [debugForm, PDFInteger.String]

theorem integerTree_mem (array : List PDFObject) (h : arrayIsIntegerTree array = true) :
    ∀ x ∈ array, entryIsIntegerTree x = true := by
  induction array with
  | nil => simp
  | cons y rest ih =>
    simp only [arrayIsIntegerTree, Bool.and_eq_true] at h
    intro x hx
    rcases List.mem_cons.1 hx with rfl | hx
    · exact h.1
    · exact ih h.2 x hx

/-- In an integer tree every entry but the first is handled with a single space as
separator. -/
theorem integerTree_separator (array : List PDFObject) (h : arrayIsIntegerTree array = true)
    (i : Nat) (hi : 0 < i) (e : PDFObject) (he : array[i]? = some e) :
    separatorAt array i = " " := by
  cases i with
  | zero => omega
  | succ j =>
    obtain ⟨hlt, _⟩ := List.getElem?_eq_some.1 he
    have hj : array[j]? = some array[j] := List.getElem?_eq_getElem (by omega)
    have hx := integerTree_mem array h array[j] (List.getElem_mem _)
    simp only [separatorAt, hj]
    cases hc : array[j] <;> first | rfl | (rw [hc] at hx; simp [entryIsIntegerTree] at hx)

/-- On an integer tree with a nested array at an index > 0 the debug form is strictly
longer than the canonical form. -/
theorem integerTree_forms_differ (c : Collaborators) (array : PDFArray) (i : Nat)
    (a : PDFArray) (ht : arrayIsIntegerTree array = true) (hi : 0 < i)
    (ha : array[i]? = some (PDFObject.PDFArray a)) :
    PDFArray.String c array ≠ PDFArray.PDFString c array := by
  cases array with
  | nil => simp at ha
  | cons x rest =>
    have hmem : ∃ b, PDFObject.PDFArray b ∈ rest := by
      cases i with
      | zero => omega
      | succ j =>
        simp only [List.getElem?_cons_succ] at ha
        exact ⟨a, List.mem_iff_getElem?.2 ⟨j, ha⟩⟩
    simp only [arrayIsIntegerTree, Bool.and_eq_true] at ht
    obtain ⟨d, p, hd, hp, hle, _⟩ :=
      integerTree_entry_lengths c x 1 (String.join (List.replicate (1 : Int).toNat "\t"))
        (if true then "" else " ") (by decide) ht.1
    obtain ⟨ds2, ps2, hds2, hps2, _, hstrict2⟩ := integerTree_loop_lengths c rest 1
      (String.join (List.replicate (1 : Int).toNat "\t")) false (by decide) ht.2
    have hfa : firstAfter x = false := by
      cases x <;> first | rfl | (simp [entryIsIntegerTree] at ht)
    have hD : PDFArray.String c (x :: rest) = some ("[" ++ String.join (d :: ds2) ++ "]") := by
      show PDFArray.indentedString c (x :: rest) 1 = _
      rw [indentedString_eq_pieces, Repeat_of_nonneg _ _ (by decide)]
      simp only [Option.some_bind]
      rw [indentedString_loop_cons, hd]
      simp only []
      rw [hfa, indentedString_loop_log, hds2]
      rfl
    have hP : PDFArray.PDFString c (x :: rest) = some ("[" ++ String.join (p :: ps2) ++ "]") := by
      rw [PDFString_eq_pieces, PDFString_loop_cons, hp]
      simp only []
      rw [PDFString_loop_log, hps2]
      rfl
    rw [hD, hP]
    intro heq
    simp only [Option.some.injEq] at heq
    have hlen := congrArg String.length heq
    simp only [String.length_append, join_length_cons] at hlen
    have := hstrict2 rfl hmem
    omega

/-! ## Claim C19 -/

/-- C19, counterexample: [[1 2] 3] is an integer tree that is not a flat integer
collection, yet its debug form and its canonical form are the same string
`[[1 2] 3]`: a nested collection at index 0 gets no separator in either form. -/
theorem C19_counterexample :
    arrayIsIntegerTree [.PDFArray [.PDFInteger 1, .PDFInteger 2], .PDFInteger 3] = true ∧
      (¬ ∃ xs : List Int, PDFArray.NewIntegerArray xs =
        [.PDFArray [.PDFInteger 1, .PDFInteger 2], .PDFInteger 3]) ∧
      PDFArray.String sampleCollaborators
          [.PDFArray [.PDFInteger 1, .PDFInteger 2], .PDFInteger 3] = some "[[1 2] 3]" ∧
      PDFArray.PDFString sampleCollaborators
          [.PDFArray [.PDFInteger 1, .PDFInteger 2], .PDFInteger 3] = some "[[1 2] 3]" := by
  refine ⟨by decide, ?_, by decide, by decide⟩
  rintro ⟨xs, hxs⟩
  rw [NewIntegerArray_eq_map] at hxs
  cases xs with
  | nil => simp at hxs
  | cons x rest => simp at hxs

/-- C19, amended: the two renderers agree on flat integer collections (and, among
integer trees, also on others such as [[1 2] 3]): for every sequence of integers xs,
`String()` of NewIntegerArray(xs) equals `PDFString()` of NewIntegerArray(xs);
whereas for an integer tree with a nested ordered collection at an index > 0 (e.g.
[3 [1 2]]) the debug form has a space before the nested '[' and the canonical form
does not, so the two differ. -/
theorem C19_renderers_on_integer_trees (c : Collaborators) :
    (∀ xs : List Int,
      PDFArray.String c (PDFArray.NewIntegerArray xs) =
        PDFArray.PDFString c (PDFArray.NewIntegerArray xs)) ∧
    (∀ (array : PDFArray) (i : Nat) (a : PDFArray),
      arrayIsIntegerTree array = true → 0 < i → array[i]? = some (PDFObject.PDFArray a) →
      PDFArray.String c array ≠ PDFArray.PDFString c array) ∧
    (∀ (array : PDFArray) (i : Nat) (a : PDFArray) (level : Int) (tab : String)
        (ds ps : List String),
      arrayIsIntegerTree array = true → 0 < i → array[i]? = some (PDFObject.PDFArray a) →
      PDFArray.indentedString.loop c level tab array true [] = some ds →
      PDFArray.PDFString.loop c array true [] = some ps →
      ds[i]? = (PDFArray.indentedString c a (level + 1)).map (fun sa => " " ++ sa) ∧
        ps[i]? = PDFArray.PDFString c a) ∧
    PDFArray.String c [.PDFInteger 3, .PDFArray [.PDFInteger 1, .PDFInteger 2]]
      = some "[3 [1 2]]" ∧
    PDFArray.PDFString c [.PDFInteger 3, .PDFArray [.PDFInteger 1, .PDFInteger 2]]
      = some "[3[1 2]]" := by
  refine ⟨?_, ?_, ?_, rfl, rfl⟩
  · intro xs
    rw [NewIntegerArray_eq_map, PDFString_of_integers]
    exact indentedString_of_integers c xs 1 (by decide)
  · intro array i a ht hi ha
    exact integerTree_forms_differ c array i a ht hi ha
  · intro array i a level tab ds ps ht hi ha hds hps
    have h1 := (indentedString_pieces c level tab array ds hds).2 i _ ha
    have h2 := (PDFString_loop_pieces c array true ps hps).2 i _ ha
    rw [integerTree_separator array ht i hi _ ha, indentedString_entry_array] at h1
    rw [PDFString_entry_array] at h2
    exact ⟨h1.symm, h2.symm⟩

/-- C19, witness: the integer tree [3 [1 2]], whose nested collection is at index 1. -/
theorem C19_renderers_on_integer_trees_witness :
    arrayIsIntegerTree [.PDFInteger 3, .PDFArray [.PDFInteger 1, .PDFInteger 2]] = true ∧
      ([.PDFInteger 3, .PDFArray [.PDFInteger 1, .PDFInteger 2]] : PDFArray)[1]?
        = some (.PDFArray [.PDFInteger 1, .PDFInteger 2]) ∧
      PDFArray.String sampleCollaborators
          [.PDFInteger 3, .PDFArray [.PDFInteger 1, .PDFInteger 2]] ≠
        PDFArray.PDFString sampleCollaborators
          [.PDFInteger 3, .PDFArray [.PDFInteger 1, .PDFInteger 2]] :=
  ⟨by decide, rfl,
    (C19_renderers_on_integer_trees sampleCollaborators).2.1
      [.PDFInteger 3, .PDFArray [.PDFInteger 1, .PDFInteger 2]] 1
      [.PDFInteger 1, .PDFInteger 2] (by decide) (by decide) rfl⟩

/-! ## Decimal forms -/

theorem decimalValue_append_singleton (l : List Char) (d : Char) :
    decimalValue (l ++ [d]) = 10 * decimalValue l + (d.toNat - 48) := by
  simp [decimalValue, List.foldl_append]

theorem digitChar_facts (k : Nat) (hk : k < 10) :
    (Nat.digitChar k).toNat - 48 = k ∧ Nat.digitChar k ≠ ' ' ∧ Nat.digitChar k ≠ '-' := by
  interval_cases k <;> decide

theorem toDigitsCore_spec (fuel : Nat) :
    ∀ (n : Nat) (ds : List Char), n < fuel →
      ∃ ds1, Nat.toDigitsCore 10 fuel n ds = ds1 ++ ds ∧ ds1 ≠ [] ∧
        (∀ ch ∈ ds1, ch ≠ ' ' ∧ ch ≠ '-') ∧ decimalValue ds1 = n := by
  induction fuel with
  | zero => intro n ds h; omega
  | succ f ih =>
    intro n ds h
    have hd := digitChar_facts (n % 10) (Nat.mod_lt _ (by decide))
    by_cases hq : n / 10 = 0
    · refine ⟨[Nat.digitChar (n % 10)], ?_, by simp, ?_, ?_⟩
      · simp [Nat.toDigitsCore, hq]
      · intro ch hch
        simp only [List.mem_singleton] at hch
        subst hch
        exact hd.2
      · simp only [decimalValue, List.foldl_cons, List.foldl_nil, Nat.mul_zero, Nat.zero_add]
        rw [hd.1]
        omega
    · obtain ⟨ds1, h1, _, h3, h4⟩ := ih (n / 10) (Nat.digitChar (n % 10) :: ds) (by omega)
      refine ⟨ds1 ++ [Nat.digitChar (n % 10)], ?_, by simp, ?_, ?_⟩
      · simp [Nat.toDigitsCore, hq, h1]
      · intro ch hch
        rcases List.mem_append.1 hch with h | h
        · exact h3 ch h
        · simp only [List.mem_singleton] at h
          subst h
          exact hd.2
      · rw [decimalValue_append_singleton, h4, hd.1]
        omega

theorem natToString_data (n : Nat) : (toString n).data = Nat.toDigits 10 n := rfl

theorem natToString_spec (n : Nat) :
    (toString n).data ≠ [] ∧ (∀ ch ∈ (toString n).data, ch ≠ ' ' ∧ ch ≠ '-') ∧
      decimalValue (toString n).data = n := by
  obtain ⟨ds1, h1, h2, h3, h4⟩ := toDigitsCore_spec (n + 1) n [] (by omega)
  rw [natToString_data, Nat.toDigits, h1, List.append_nil]
  exact ⟨h2, h3, h4⟩

theorem intToString_ofNat (m : Nat) : toString (Int.ofNat m) = toString m := rfl
theorem intToString_negSucc (m : Nat) : toString (Int.negSucc m) = "-" ++ toString (m + 1) := rfl

theorem intToString_injective (i j : Int) (h : toString i = toString j) : i = j := by
  have hd := congrArg String.data h
  cases i with
  | ofNat m =>
    cases j with
    | ofNat k =>
      rw [intToString_ofNat, intToString_ofNat] at hd
      have := congrArg decimalValue hd
      rw [(natToString_spec m).2.2, (natToString_spec k).2.2] at this
      rw [this]
    | negSucc k =>
      rw [intToString_ofNat, intToString_negSucc, String.data_append] at hd
      have h1 := (natToString_spec m).2.1
      rw [hd] at h1
      exact absurd rfl (h1 '-' (by simp)).2
  | negSucc m =>
    cases j with
    | ofNat k =>
      rw [intToString_ofNat, intToString_negSucc, String.data_append] at hd
      have h1 := (natToString_spec k).2.1
      rw [← hd] at h1
      exact absurd rfl (h1 '-' (by simp)).2
    | negSucc k =>
      rw [intToString_negSucc, intToString_negSucc, String.data_append, String.data_append] at hd
      have hd2 := List.append_cancel_left hd
      have := congrArg decimalValue hd2
      rw [(natToString_spec (m + 1)).2.2, (natToString_spec (k + 1)).2.2] at this
      have : m = k := by omega
      rw [this]

theorem intToString_no_space (i : Int) : ' ' ∉ (toString i).data := by
  intro h
  cases i with
  | ofNat m =>
    rw [intToString_ofNat] at h
    exact absurd rfl ((natToString_spec m).2.1 ' ' h).1
  | negSucc m =>
    rw [intToString_negSucc, String.data_append] at h
    rcases List.mem_append.1 h with h | h
    · simp at h
    · exact absurd rfl ((natToString_spec (m + 1)).2.1 ' ' h).1

theorem intToString_ne_empty (i : Int) : (toString i).data ≠ [] := by
  cases i with
  | ofNat m =>
    rw [intToString_ofNat]
    exact (natToString_spec m).1
  | negSucc m =>
    rw [intToString_negSucc, String.data_append]
    simp

/-! ## Strings joined by a separator -/

/-- The parts of a string up to the first separator are determined by the string. -/
theorem split_unique (sep : Char) :
    ∀ (x y r1 r2 : List Char), sep ∉ x → sep ∉ y →
      (r1 = [] ∨ ∃ t, r1 = sep :: t) → (r2 = [] ∨ ∃ t, r2 = sep :: t) →
      x ++ r1 = y ++ r2 → x = y ∧ r1 = r2
  | [], [], _, _, _, _, _, _, h => ⟨rfl, by simpa using h⟩
  | [], b :: y, r1, r2, _, hy, h1, _, h => by
    simp only [List.nil_append, List.cons_append] at h
    rcases h1 with h1 | ⟨t, h1⟩
    · rw [h1] at h
      simp at h
    · rw [h1] at h
      simp only [List.cons.injEq] at h
      exact absurd (by rw [h.1]; exact List.mem_cons_self _ _) hy
  | a :: x, [], r1, r2, hx, _, _, h2, h => by
    simp only [List.nil_append, List.cons_append] at h
    rcases h2 with h2 | ⟨t, h2⟩
    · rw [h2] at h
      simp at h
    · rw [h2] at h
      simp only [List.cons.injEq] at h
      exact absurd (by rw [← h.1]; exact List.mem_cons_self _ _) hx
  | a :: x, b :: y, r1, r2, hx, hy, h1, h2, h => by
    simp only [List.cons_append, List.cons.injEq] at h
    obtain ⟨hxy, hr⟩ := split_unique sep x y r1 r2
      (fun hm => hx (List.mem_cons_of_mem _ hm)) (fun hm => hy (List.mem_cons_of_mem _ hm))
      h1 h2 h.2
    exact ⟨by rw [h.1, hxy], hr⟩

theorem sepItems_shape (sep : Char) (l : List (List Char)) :
    (l.map (sep :: ·)).flatten = [] ∨ ∃ t, (l.map (sep :: ·)).flatten = sep :: t := by
  cases l with
  | nil => exact Or.inl rfl
  | cons x rest => exact Or.inr ⟨_, rfl⟩

theorem sepItems_injective (sep : Char) :
    ∀ (xs ys : List (List Char)), (∀ x ∈ xs, sep ∉ x) → (∀ y ∈ ys, sep ∉ y) →
      (xs.map (sep :: ·)).flatten = (ys.map (sep :: ·)).flatten → xs = ys
  | [], [], _, _, _ => rfl
  | [], y :: ys, _, _, h => by simp at h
  | x :: xs, [], _, _, h => by simp at h
  | x :: xs, y :: ys, hx, hy, h => by
    simp only [List.map_cons, List.flatten_cons, List.cons_append, List.cons.injEq,
      true_and] at h
    obtain ⟨h1, h2⟩ := split_unique sep x y _ _ (hx x (List.mem_cons_self _ _))
      (hy y (List.mem_cons_self _ _)) (sepItems_shape sep xs) (sepItems_shape sep ys) h
    have := sepItems_injective sep xs ys (fun z hz => hx z (List.mem_cons_of_mem _ hz))
      (fun z hz => hy z (List.mem_cons_of_mem _ hz)) h2
    rw [h1, this]

/-- Items joined by a separator they do not contain. -/
theorem joined_injective (sep : Char) (xs ys : List (List Char))
    (hx : ∀ x ∈ xs, sep ∉ x) (hy : ∀ y ∈ ys, sep ∉ y) (hnil : xs = [] ↔ ys = [])
    (h : joinedBy sep xs = joinedBy sep ys) : xs = ys := by
  cases xs with
  | nil => exact (hnil.1 rfl).symm
  | cons x xl =>
    cases ys with
    | nil => exact hnil.2 rfl
    | cons y yl =>
      simp only [joinedBy] at h
      obtain ⟨h1, h2⟩ := split_unique sep x y _ _ (hx x (List.mem_cons_self _ _))
        (hy y (List.mem_cons_self _ _)) (sepItems_shape sep xl) (sepItems_shape sep yl) h
      have := sepItems_injective sep xl yl (fun z hz => hx z (List.mem_cons_of_mem _ hz))
        (fun z hz => hy z (List.mem_cons_of_mem _ hz)) h2
      rw [h1, this]

theorem intercalate_space_data (l : List String) :
    (" ".intercalate l).data = joinedBy ' ' (l.map String.data) := by
  cases l with
  | nil => rfl
  | cons x r =>
    rw [intercalate_cons, String.data_append, String.data_join]
    simp only [List.map_cons, List.map_map, joinedBy]
    congr 2

/-- Strings without a space, joined by single spaces, can be told apart. -/
theorem intercalate_space_injective (xs ys : List String)
    (hx : ∀ x ∈ xs, ' ' ∉ x.data) (hy : ∀ y ∈ ys, ' ' ∉ y.data) (hnil : xs = [] ↔ ys = [])
    (h : " ".intercalate xs = " ".intercalate ys) : xs = ys := by
  have hd := congrArg String.data h
  rw [intercalate_space_data, intercalate_space_data] at hd
  have hmap : xs.map String.data = ys.map String.data := by
    apply joined_injective ' ' _ _ _ _ _ hd
    · intro x hxm
      obtain ⟨s, hs, rfl⟩ := List.mem_map.1 hxm
      exact hx s hs
    · intro y hym
      obtain ⟨s, hs, rfl⟩ := List.mem_map.1 hym
      exact hy s hs
    · simp only [List.map_eq_nil_iff]
      exact hnil
  exact List.map_injective_iff.2 (fun a b hab => String.ext hab) hmap

theorem bracket_cancel (a b : String) (h : "[" ++ a ++ "]" = "[" ++ b ++ "]") : a = b := by
  have hd := congrArg String.data h
  simp only [String.data_append] at hd
  exact String.ext (List.append_cancel_left (List.append_cancel_right hd))

/-- Names without a slash, each written behind a slash, can be told apart. -/
theorem join_slash_injective (xs ys : List String)
    (hx : ∀ x ∈ xs, '/' ∉ x.data) (hy : ∀ y ∈ ys, '/' ∉ y.data)
    (h : String.join (xs.map PDFName.PDFString) = String.join (ys.map PDFName.PDFString)) :
    xs = ys := by
  have hd := congrArg String.data h
  rw [String.data_join, String.data_join] at hd
  have hshape : ∀ l : List String,
      (l.map PDFName.PDFString).map String.data = (l.map String.data).map ('/' :: ·) := by
    intro l
    simp only [List.map_map]
    apply List.map_congr_left
    intro y _
    simp only [Function.comp_apply, PDFName.PDFString, String.data_append]
    rfl
  rw [hshape, hshape] at hd
  have hmap : xs.map String.data = ys.map String.data := by
    apply sepItems_injective '/' _ _ _ _ hd
    · intro x hxm
      obtain ⟨s, hs, rfl⟩ := List.mem_map.1 hxm
      exact hx s hs
    · intro y hym
      obtain ⟨s, hs, rfl⟩ := List.mem_map.1 hym
      exact hy s hs
  exact List.map_injective_iff.2 (fun a b hab => String.ext hab) hmap

/-- Bracketed forms of two sequences, joined by single spaces, are equal only for equal
sequences, when the forms hold no space and determine the entries. -/
theorem bracketed_forms_injective {α : Type} (f : α → String) (hinj : Function.Injective f)
    (xs ys : List α) (hx : ∀ x ∈ xs, ' ' ∉ (f x).data) (hy : ∀ y ∈ ys, ' ' ∉ (f y).data)
    (hnil : xs = [] ↔ ys = [])
    (h : "[" ++ " ".intercalate (xs.map f) ++ "]" = "[" ++ " ".intercalate (ys.map f) ++ "]") :
    xs = ys := by
  have hmap : xs.map f = ys.map f := by
    apply intercalate_space_injective _ _ _ _ _ (bracket_cancel _ _ h)
    · intro s hs
      obtain ⟨x, hxm, rfl⟩ := List.mem_map.1 hs
      exact hx x hxm
    · intro s hs
      obtain ⟨y, hym, rfl⟩ := List.mem_map.1 hs
      exact hy y hym
    · simp only [List.map_eq_nil_iff]
      exact hnil
  exact List.map_injective_iff.2 hinj hmap

/-- The bracketed decimal forms of two integer sequences are equal only for equal
sequences. -/
theorem bracketed_integers_injective (xs ys : List Int)
    (h : "[" ++ " ".intercalate (xs.map (fun i => toString i)) ++ "]" =
      "[" ++ " ".intercalate (ys.map (fun i => toString i)) ++ "]") : xs = ys := by
  have hempty : ∀ l : List Int, (" ".intercalate (l.map (fun i => toString i))).data = [] →
      l = [] := by
    intro l hl
    cases l with
    | nil => rfl
    | cons i rest =>
      rw [List.map_cons, intercalate_cons, String.data_append] at hl
      exact absurd (List.append_eq_nil.1 hl).1 (intToString_ne_empty i)
  have hb := bracket_cancel _ _ h
  apply bracketed_forms_injective (fun i : Int => toString i)
    (fun i j hij => intToString_injective i j hij) xs ys
    (fun x _ => intToString_no_space x) (fun y _ => intToString_no_space y) _ h
  constructor
  · intro hxs
    subst hxs
    exact hempty ys (by rw [← hb]; rfl)
  · intro hys
    subst hys
    exact hempty xs (by rw [hb]; rfl)

/-! ## Canonical and debug forms of built collections -/

theorem NewStringArray_eq_map (ss : List String) :
    PDFArray.NewStringArray ss = ss.map PDFObject.PDFStringLiteral := by
  simp [PDFArray.NewStringArray, foldl_append_singleton_eq_map]

/-- The canonical form of a collection of names. -/
theorem PDFString_of_names (c : Collaborators) (ns : List String) :
    PDFArray.PDFString c (ns.map PDFObject.PDFName) =
      some ("[" ++ String.join (ns.map PDFName.PDFString) ++ "]") := by
  rw [PDFString_eq_pieces, PDFString_loop_names]
  rfl

theorem PDFString_loop_stringLiterals (c : Collaborators) (ss : List String) :
    PDFArray.PDFString.loop c (ss.map PDFObject.PDFStringLiteral) false [] =
      some (ss.map (fun s => " " ++ c.stringLiteralString s)) := by
  induction ss with
  | nil => rfl
  | cons n rest ih =>
    rw [List.map_cons, PDFString_loop_cons]
    simp only [PDFArray.PDFString.entry]
    rw [PDFString_loop_log, ih]
    simp

/-- The canonical form of a collection of string literals. -/
theorem PDFString_of_stringLiterals (c : Collaborators) (ss : List String) :
    PDFArray.PDFString c (ss.map PDFObject.PDFStringLiteral) =
      some ("[" ++ " ".intercalate (ss.map c.stringLiteralString) ++ "]") := by
  rw [PDFString_eq_pieces]
  cases ss with
  | nil => rfl
  | cons n rest =>
    rw [List.map_cons, PDFString_loop_cons]
    simp only [PDFArray.PDFString.entry]
    rw [PDFString_loop_log, PDFString_loop_stringLiterals]
    simp only [Option.map_some', List.map_cons, intercalate_cons, List.nil_append,
      List.singleton_append, join_cons, List.map_map]
    congr 3

/-- The debug form of a collection of names, at a level that is not negative. -/
theorem indentedString_of_names (c : Collaborators) (ns : List String) (level : Int)
    (hlevel : 0 ≤ level) :
    PDFArray.indentedString c (ns.map PDFObject.PDFName) level =
      some ("[" ++ " ".intercalate (ns.map c.nameString) ++ "]") := by
  apply indentedString_of_flat c _ level _ hlevel
  simp [debugForm]

/-- The debug form of a collection of string literals, at a level that is not
negative. -/
theorem indentedString_of_stringLiterals (c : Collaborators) (ss : List String) (level : Int)
    (hlevel : 0 ≤ level) :
    PDFArray.indentedString c (ss.map PDFObject.PDFStringLiteral) level =
      some ("[" ++ " ".intercalate (ss.map c.stringLiteralString) ++ "]") := by
  apply indentedString_of_flat c _ level _ hlevel
  simp [debugForm]

theorem reverse_nil_iff {α : Type} (xs : List α) : xs.reverse = [] ↔ xs = [] := by
  simp

/-! ## Claims C14 and C15 -/

/-- C14: round trip for integer literals: `PDFString` composed with NewIntegerArray is
injective: for all integer sequences xs and ys, PDFString(NewIntegerArray(xs)) =
PDFString(NewIntegerArray(ys)) implies xs = ys (the decimal forms hold no space and
determine the integers, so the sequence can be read back). -/
theorem C14_integer_array_round_trip (c : Collaborators) (xs ys : List Int)
    (h : PDFArray.PDFString c (PDFArray.NewIntegerArray xs) =
      PDFArray.PDFString c (PDFArray.NewIntegerArray ys)) : xs = ys := by
  rw [NewIntegerArray_eq_map, NewIntegerArray_eq_map, PDFString_of_integers,
    PDFString_of_integers] at h
  exact bracketed_integers_injective xs ys (Option.some.inj h)

/-- C14, witness: the sequence 1, -20, 3, and the sequences 1, 2 and 2, 1 whose
canonical forms differ. -/
theorem C14_integer_array_round_trip_witness :
    PDFArray.PDFString sampleCollaborators (PDFArray.NewIntegerArray [1, -20, 3]) =
        PDFArray.PDFString sampleCollaborators (PDFArray.NewIntegerArray [1, -20, 3]) ∧
      ([1, -20, 3] : List Int) = [1, -20, 3] ∧
      PDFArray.PDFString sampleCollaborators (PDFArray.NewIntegerArray [1, 2]) ≠
        PDFArray.PDFString sampleCollaborators (PDFArray.NewIntegerArray [2, 1]) :=
  ⟨rfl, C14_integer_array_round_trip sampleCollaborators [1, -20, 3] [1, -20, 3] rfl,
    fun h => absurd (C14_integer_array_round_trip sampleCollaborators [1, 2] [2, 1] h)
      (by decide)⟩

/-- C15, counterexample: the names A and A/A.  The sequence differs from its reversal,
yet NewNameArray of the sequence and NewNameArray of its reversal have the same
canonical form `[/A/A/A]`: the builder does not validate the names and the PDFName
branch writes them without a separator. -/
theorem C15_counterexample :
    (["A", "A/A"] : List String).reverse ≠ ["A", "A/A"] ∧
      PDFArray.PDFString sampleCollaborators
          (PDFArray.NewNameArray (["A", "A/A"] : List String).reverse) = some "[/A/A/A]" ∧
      PDFArray.PDFString sampleCollaborators (PDFArray.NewNameArray ["A", "A/A"])
        = some "[/A/A/A]" := by
  decide

/-- C15, amended: order sensitivity of the renderers.  For every collection built by
NewIntegerArray from a sequence xs whose reversal differs from xs, the canonical form
and the debug form of the collection built from reverse(xs) differ from those of the
collection built from xs.  The same holds for the canonical form of NewNameArray when
no name contains '/', and for the debug form of NewNameArray and both forms of
NewStringArray when the entries' `String()` forms contain no space and determine the
entry. -/
theorem C15_order_sensitivity (c : Collaborators) :
    (∀ xs : List Int, xs.reverse ≠ xs →
      PDFArray.PDFString c (PDFArray.NewIntegerArray xs.reverse) ≠
          PDFArray.PDFString c (PDFArray.NewIntegerArray xs) ∧
        PDFArray.String c (PDFArray.NewIntegerArray xs.reverse) ≠
          PDFArray.String c (PDFArray.NewIntegerArray xs)) ∧
    (∀ ns : List String, (∀ n ∈ ns, '/' ∉ n.data) → ns.reverse ≠ ns →
      PDFArray.PDFString c (PDFArray.NewNameArray ns.reverse) ≠
        PDFArray.PDFString c (PDFArray.NewNameArray ns)) ∧
    (∀ ns : List String, Function.Injective c.nameString →
      (∀ n ∈ ns, ' ' ∉ (c.nameString n).data) → ns.reverse ≠ ns →
      PDFArray.String c (PDFArray.NewNameArray ns.reverse) ≠
        PDFArray.String c (PDFArray.NewNameArray ns)) ∧
    (∀ ss : List String, Function.Injective c.stringLiteralString →
      (∀ s ∈ ss, ' ' ∉ (c.stringLiteralString s).data) → ss.reverse ≠ ss →
      PDFArray.PDFString c (PDFArray.NewStringArray ss.reverse) ≠
          PDFArray.PDFString c (PDFArray.NewStringArray ss) ∧
        PDFArray.String c (PDFArray.NewStringArray ss.reverse) ≠
          PDFArray.String c (PDFArray.NewStringArray ss)) := by
  refine ⟨?_, ?_, ?_, ?_⟩
  · intro xs hrev
    constructor
    · intro h
      rw [NewIntegerArray_eq_map, NewIntegerArray_eq_map, PDFString_of_integers,
        PDFString_of_integers] at h
      exact hrev (bracketed_integers_injective _ _ (Option.some.inj h))
    · intro h
      unfold PDFArray.String at h
      rw [NewIntegerArray_eq_map, NewIntegerArray_eq_map,
        indentedString_of_integers c _ 1 (by decide),
        indentedString_of_integers c _ 1 (by decide)] at h
      exact hrev (bracketed_integers_injective _ _ (Option.some.inj h))
  · intro ns hslash hrev h
    rw [NewNameArray_eq_map, NewNameArray_eq_map, PDFString_of_names, PDFString_of_names] at h
    exact hrev (join_slash_injective _ _
      (fun n hn => hslash n (List.mem_reverse.1 hn)) hslash
      (bracket_cancel _ _ (Option.some.inj h)))
  · intro ns hinj hsp hrev h
    unfold PDFArray.String at h
    rw [NewNameArray_eq_map, NewNameArray_eq_map, indentedString_of_names c _ 1 (by decide),
      indentedString_of_names c _ 1 (by decide)] at h
    exact hrev (bracketed_forms_injective c.nameString hinj _ _
      (fun n hn => hsp n (List.mem_reverse.1 hn)) hsp (reverse_nil_iff ns)
      (Option.some.inj h))
  · intro ss hinj hsp hrev
    constructor
    · intro h
      rw [NewStringArray_eq_map, NewStringArray_eq_map, PDFString_of_stringLiterals,
        PDFString_of_stringLiterals] at h
      exact hrev (bracketed_forms_injective c.stringLiteralString hinj _ _
        (fun n hn => hsp n (List.mem_reverse.1 hn)) hsp (reverse_nil_iff ss)
        (Option.some.inj h))
    · intro h
      unfold PDFArray.String at h
      rw [NewStringArray_eq_map, NewStringArray_eq_map,
        indentedString_of_stringLiterals c _ 1 (by decide),
        indentedString_of_stringLiterals c _ 1 (by decide)] at h
      exact hrev (bracketed_forms_injective c.stringLiteralString hinj _ _
        (fun n hn => hsp n (List.mem_reverse.1 hn)) hsp (reverse_nil_iff ss)
        (Option.some.inj h))

/-- C15, witness: the integers 1, 2, the names A, B and the string literals a, b. -/
theorem C15_order_sensitivity_witness :
    (([1, 2] : List Int).reverse ≠ [1, 2] ∧
      PDFArray.PDFString sampleCollaborators (PDFArray.NewIntegerArray ([1, 2] : List Int).reverse)
        ≠ PDFArray.PDFString sampleCollaborators (PDFArray.NewIntegerArray [1, 2]) ∧
      PDFArray.String sampleCollaborators (PDFArray.NewIntegerArray ([1, 2] : List Int).reverse)
        ≠ PDFArray.String sampleCollaborators (PDFArray.NewIntegerArray [1, 2])) ∧
    ((∀ n ∈ (["A", "B"] : List String), '/' ∉ n.data) ∧
      PDFArray.PDFString sampleCollaborators
          (PDFArray.NewNameArray (["A", "B"] : List String).reverse)
        ≠ PDFArray.PDFString sampleCollaborators (PDFArray.NewNameArray ["A", "B"])) ∧
    (PDFArray.String sampleCollaborators
          (PDFArray.NewNameArray (["A", "B"] : List String).reverse)
        ≠ PDFArray.String sampleCollaborators (PDFArray.NewNameArray ["A", "B"])) ∧
    (PDFArray.PDFString sampleCollaborators
          (PDFArray.NewStringArray (["a", "b"] : List String).reverse)
        ≠ PDFArray.PDFString sampleCollaborators (PDFArray.NewStringArray ["a", "b"])) :=
  ⟨⟨by decide, (C15_order_sensitivity sampleCollaborators).1 [1, 2] (by decide)⟩,
    ⟨by decide, (C15_order_sensitivity sampleCollaborators).2.1 ["A", "B"] (by decide)
      (by decide)⟩,
    (C15_order_sensitivity sampleCollaborators).2.2.1 ["A", "B"] (fun _ _ h => h) (by decide)
      (by decide),
    ((C15_order_sensitivity sampleCollaborators).2.2.2 ["a", "b"]
      (fun a b h => by
        have hd := congrArg String.data h
        simp only [sampleCollaborators, String.data_append] at hd
        exact String.ext (List.append_cancel_left (List.append_cancel_right hd)))
      (by decide) (by decide)).1⟩
